import Mathlib

/-!
Verification of the shcol column-layout core.

This file gives a shallow embedding of the column-width calculator
(src/shcol/core/columncalc.py, identical in src/shcol/core.py) and of the
iterable formatter (src/shcol/core/formatters.py), and proves properties of
the layout algorithm.

Conventions of the embedding:
* Python strings are modelled as List Char; len(s) is List.length.
* Python integer division and modulo on non-negative ints are Nat.div and
  Nat.mod; a Python ZeroDivisionError is made explicit through the PyError
  type, as are LineTooSmallError and ValueError.
* Quantities that can go negative in the Python code (the used line width
  for an empty width list, the shrink offset, num_wraps) are modelled in Int.
* List comprehensions over range(...) are modelled by List.range followed by
  List.map.
-/

namespace Shcol

/-- Exceptions that the modelled code can raise: LineTooSmallError from
columncalc.py, ZeroDivisionError from the // operator, and ValueError from
max() applied to an empty sequence. -/
inductive PyError where
  | lineTooSmall
  | zeroDivision
  | valueError
  deriving DecidableEq, Repr

/-- ColumnConfig namedtuple of columncalc.py: calculated column widths and
the number of lines needed to display all items. -/
structure ColumnConfig where
  column_widths : List Nat
  num_lines : Nat
  deriving DecidableEq, Repr

/-- LineProperties namedtuple of columncalc.py. -/
structure LineProperties where
  column_widths : List Nat
  spacing : Nat
  num_lines : Nat
  deriving DecidableEq, Repr

/-- The attributes of a ColumnWidthCalculator instance
(columncalc.py, ColumnWidthCalculator.__init__). helpers.num guarantees
spacing >= 0 and line_width >= 1; num_columns and min_shrink_width are
None or >= 1. -/
structure Calc where
  spacing : Nat
  line_width : Nat
  num_columns : Option Nat := none
  allow_exceeding : Bool := false
  min_shrink_width : Option Nat := none
  deriving DecidableEq, Repr

/-- Python min over a non-empty list of ints; junk value 0 on []. -/
def listMin : List Nat → Nat
  | [] => 0
  | x :: xs => xs.foldl Nat.min x

/-- Python max over a non-empty list of ints; junk value 0 on []. -/
def listMax : List Nat → Nat
  | [] => 0
  | x :: xs => xs.foldl Nat.max x

/-- Ceiling division: the value of divmod-with-rounding-up used throughout
the calculator, i.e. num_lines = ceil(num_items / max_columns). -/
def cdiv (n m : Nat) : Nat := (n + m - 1) / m

/-- ColumnWidthCalculator.get_used_line_width:
sum(column_widths) + (len(column_widths) - 1) * self.spacing.
Int because len = 0 makes the Python value negative. -/
def get_used_line_width (c : Calc) (ws : List Nat) : Int :=
  (ws.sum : Int) + ((ws.length : Int) - 1) * (c.spacing : Int)

/-- ColumnWidthCalculator.fits_in_line. -/
def fits_in_line (c : Calc) (ws : List Nat) : Bool :=
  get_used_line_width c ws ≤ (c.line_width : Int)

/-- The list comprehension in get_unchecked_column_config:
[max(item_widths[i : i + num_lines]) for i in range(0, num_items, num_lines)].
range(0, n, nl) enumerates j * nl for j < ceil(n / nl), and
item_widths[i : i + nl] is drop i followed by take nl. -/
def columnWidthsOf (iw : List Nat) (nl : Nat) : List Nat :=
  (List.range (cdiv iw.length nl)).map (fun j => listMax ((iw.drop (j * nl)).take nl))

/-- ColumnWidthCalculator.get_unchecked_column_config. The Python code
requires max_columns >= 1 (helpers.num raises ValueError on 0); every call
site below satisfies this. -/
def get_unchecked_column_config (iw : List Nat) (max_columns : Nat) : ColumnConfig :=
  let num_items := iw.length
  let num_lines :=
    if num_items % max_columns = 0 then num_items / max_columns
    else num_items / max_columns + 1
  ⟨columnWidthsOf iw num_lines, num_lines⟩

/-- The loop of ColumnWidthCalculator.iter_column_configs, with explicit
fuel. The loop strictly decreases max_columns (the produced configuration
has at most max_columns columns), so fuel = initial max_columns suffices;
this is proved below (iter_aux_fuel_irrelevant). -/
def iter_aux (iw : List Nat) : Nat → Nat → List ColumnConfig
  | _, 0 => []
  | 0, _ + 1 => []
  | fuel + 1, mc + 1 =>
    let cfg := get_unchecked_column_config iw (mc + 1)
    cfg :: iter_aux iw fuel (cfg.column_widths.length - 1)

/-- ColumnWidthCalculator.iter_column_configs, materialised as the list of
configurations the generator yields. -/
def iter_column_configs (iw : List Nat) (max_columns : Nat) : List ColumnConfig :=
  iter_aux iw max_columns max_columns

/-- ColumnWidthCalculator.calculate_max_columns. The division
remaining_width // min_width raises ZeroDivisionError when
spacing + smallest_item = 0, which is reachable (spacing 0 plus an empty
item); the error is modelled explicitly. -/
def calculate_max_columns (c : Calc) (iw : List Nat) : Except PyError Nat :=
  let num_items := iw.length
  if num_items ≤ 1 then .ok num_items
  else
    let smallest_item := listMin iw
    let widest_item := listMax iw
    if widest_item ≥ c.line_width then .ok 1
    else
      let min_width := c.spacing + smallest_item
      if min_width = 0 then .error .zeroDivision
      else
        let possible_columns := 1 + (c.line_width - widest_item) / min_width
        .ok (Nat.min num_items possible_columns)

/-- ColumnWidthCalculator.find_fitting_config: first fitting candidate of
iter_column_configs, else LineTooSmallError. -/
def find_fitting_config (c : Calc) (iw : List Nat) : Except PyError ColumnConfig :=
  match calculate_max_columns c iw with
  | .error e => .error e
  | .ok max_columns =>
    match (iter_column_configs iw max_columns).find?
        (fun cfg => fits_in_line c cfg.column_widths) with
    | some cfg => .ok cfg
    | none => .error .lineTooSmall

/-- The loop of ColumnWidthCalculator.shrink_column_widths over
reversed(column_widths). Returns the final offset and the processed new
widths; the accumulator is kept in left-to-right order, so it equals
reversed(processed) of the Python code. -/
def shrink_aux (minw : Nat) : Int → List Nat → List Nat → Int × List Nat
  | offset, [], acc => (offset, acc)
  | offset, w :: rest, acc =>
    if offset ≤ 0 then (offset, acc)
    else if w ≤ minw then shrink_aux minw offset rest (w :: acc)
    else
      let nw : Nat :=
        if (w : Int) - offset < (minw : Int) then minw else ((w : Int) - offset).toNat
      shrink_aux minw (offset - ((w : Int) - (nw : Int))) rest (nw :: acc)

/-- ColumnWidthCalculator.shrink_column_widths. Only called when
min_shrink_width is not None; minw is that value. -/
def shrink_column_widths (c : Calc) (minw : Nat) (ws : List Nat) : Except PyError (List Nat) :=
  let r := shrink_aux minw (get_used_line_width c ws - (c.line_width : Int)) ws.reverse []
  if r.1 > 0 then .error .lineTooSmall
  else if r.2.isEmpty then .ok ws
  else .ok (ws.take (ws.length - r.2.length) ++ r.2)

/-- ColumnWidthCalculator.get_column_config. -/
def get_column_config (c : Calc) (iw : List Nat) : Except PyError ColumnConfig :=
  match c.num_columns with
  | none => find_fitting_config c iw
  | some k =>
    let cfg := get_unchecked_column_config iw k
    if fits_in_line c cfg.column_widths then .ok cfg
    else
      match c.min_shrink_width with
      | none => .error .lineTooSmall
      | some minw =>
        match shrink_column_widths c minw cfg.column_widths with
        | .ok ws => .ok ⟨ws, cfg.num_lines⟩
        | .error e => .error e

/-- ColumnWidthCalculator.calculate_columns. Only LineTooSmallError is
caught by the allow_exceeding escape; other exceptions propagate. -/
def calculate_columns (c : Calc) (iw : List Nat) : Except PyError ColumnConfig :=
  if iw.isEmpty then .ok ⟨[], 0⟩
  else
    match get_column_config c iw with
    | .ok cfg => .ok cfg
    | .error .lineTooSmall =>
      if c.allow_exceeding ∧ (c.num_columns = none ∨ c.num_columns = some 1) then
        .ok ⟨[c.line_width], iw.length⟩
      else .error .lineTooSmall
    | .error e => .error e

/-- ColumnWidthCalculator.get_line_properties on the item strings. -/
def calc_line_properties (c : Calc) (items : List (List Char)) : Except PyError LineProperties :=
  match calculate_columns c (items.map List.length) with
  | .ok cfg => .ok ⟨cfg.column_widths, c.spacing, cfg.num_lines⟩
  | .error e => .error e

/-!  The formatter (src/shcol/core/formatters.py, IterableFormatter), in the
wrap_lines = True mode used by for_line_config / columnize with an explicit
line width (wrapsep = linesep = a single newline character). -/

/-- The attributes of an IterableFormatter that the layout depends on. -/
structure Fmt where
  calculator : Calc
  extra_sep : Option Char := none
  deriving Repr

/-- The temporary spacing adjustment of IterableFormatter.get_line_properties:
with an extra separator and even spacing, the calculation runs with
spacing + 1. -/
def Fmt.effCalc (f : Fmt) : Calc :=
  if f.extra_sep.isSome ∧ f.calculator.spacing % 2 = 0 then
    { f.calculator with spacing := f.calculator.spacing + 1 }
  else f.calculator

/-- IterableFormatter.get_line_properties. -/
def get_line_properties (f : Fmt) (items : List (List Char)) : Except PyError LineProperties :=
  calc_line_properties f.effCalc items

/-- The Python slice items[r :: nl] (nl >= 1): the elements at indices
r, r + nl, r + 2*nl, ...; there are ceil((len - r) / nl) of them. -/
def sliceStep (items : List (List Char)) (r nl : Nat) : List (List Char) :=
  (List.range (cdiv (items.length - r) nl)).map (fun i => items.getD (i * nl + r) [])

/-- IterableFormatter.make_line_chunks:
[tuple(items[i::props.num_lines]) for i in range(props.num_lines)]. -/
def make_line_chunks (items : List (List Char)) (nl : Nat) : List (List (List Char)) :=
  (List.range nl).map (fun r => sliceStep items r nl)

/-- The result of applying the format specifier of get_padded_template
('%-w.ws') to a string: truncate to the width, then pad on the right with
blanks to exactly the width. -/
def padCell (w : Nat) (s : List Char) : List Char :=
  s.take w ++ List.replicate (w - (s.take w).length) ' '

/-- The result of applying the format specifier of get_unpadded_template
('%.ws') to a string: truncate to the width, no padding. -/
def truncCell (w : Nat) (s : List Char) : List Char :=
  s.take w

/-- The column separator of make_line_template: spacing blanks, or with an
extra separator, spacing/2 blanks on each side of the separator char. -/
def Fmt.colSep (f : Fmt) (spacing : Nat) : List Char :=
  match f.extra_sep with
  | none => List.replicate spacing ' '
  | some ch => List.replicate (spacing / 2) ' ' ++ ch :: List.replicate (spacing / 2) ' '

/-- make_line_template applied to a tuple of cells of the same arity as the
widths: every column but the last is padded, the last is only truncated,
joined by the column separator. -/
def renderRow (sep : List Char) : List Nat → List (List Char) → List Char
  | [], _ => []
  | [w], s :: _ => truncCell w s
  | w :: ws, s :: ss => padCell w s ++ sep ++ renderRow sep ws ss
  | _ :: _, [] => []

/-- len(item) // width - int(len(item) % width == 0) from
iter_formatted_lines; -1 for an empty item in a positive-width column. -/
def wrapVal (len w : Nat) : Int :=
  (len / w : Nat) - (if len % w = 0 then 1 else 0)

/-- The num_wraps computation of iter_formatted_lines:
max over zip(chunk, column_widths); ValueError on an empty zip,
ZeroDivisionError when a zipped width is 0. -/
def num_wraps (chunk : List (List Char)) (widths : List Nat) : Except PyError Int :=
  match chunk.zip widths with
  | [] => .error .valueError
  | p :: ps =>
    if (p :: ps).any (fun q => q.2 = 0) then .error .zeroDivision
    else .ok ((ps.map (fun q => wrapVal q.1.length q.2)).foldl max (wrapVal p.1.length p.2))

/-- The wrapped_chunk of iter_formatted_lines for wrap index i:
item[pos * i : pos * (i + 1)] for each zipped (item, pos). -/
def wrapped_chunk (chunk : List (List Char)) (widths : List Nat) (i : Nat) : List (List Char) :=
  (chunk.zip widths).map (fun p => (p.1.drop (p.2 * i)).take p.2)

/-- The body of iter_formatted_lines for one chunk: the list of rendered
sub-lines (the parts later joined with wrapsep). The template is rebuilt
with num_columns = len(wrapped_chunk) whenever the arity differs, so each
sub-line uses the first len(wrapped_chunk) column widths. -/
def format_chunk (f : Fmt) (props : LineProperties) (chunk : List (List Char)) :
    Except PyError (List (List Char)) :=
  match num_wraps chunk props.column_widths with
  | .error e => .error e
  | .ok nw =>
    .ok ((List.range (nw + 1).toNat).map (fun i =>
      let wc := wrapped_chunk chunk props.column_widths i
      renderRow (f.colSep props.spacing) (props.column_widths.take wc.length) wc))

/-- Sequencing of a generator that raises: stop at the first error. -/
def mapExcept (g : α → Except PyError β) : List α → Except PyError (List β)
  | [] => .ok []
  | x :: xs =>
    match g x with
    | .error e => .error e
    | .ok y =>
      match mapExcept g xs with
      | .error e => .error e
      | .ok ys => .ok (y :: ys)

/-- IterableFormatter.make_lines up to the per-chunk sub-lines: line
properties, chunking, and per-chunk formatting. Element r of the result
holds the sub-lines of output row r. -/
def make_lines_pieces (f : Fmt) (items : List (List Char)) :
    Except PyError (List (List (List Char))) :=
  match get_line_properties f items with
  | .error e => .error e
  | .ok props => mapExcept (format_chunk f props) (make_line_chunks items props.num_lines)

/-- The newline character (config.LINESEP). -/
def nl : Char := '\x0a'

/-- str.rstrip(linesep) for a one-character linesep: drop trailing newlines. -/
def rstripNl (s : List Char) : List Char :=
  (s.reverse.dropWhile (fun ch => ch = nl)).reverse

/-- IterableFormatter.format with wrap_lines = True: each chunk's sub-lines
joined with wrapsep (= linesep), a break appended after every line
(add_line_breaks appends wrapsep for lines exactly matching the line width
and linesep otherwise; both are the newline here), joined and rstripped. -/
def format_string (f : Fmt) (items : List (List Char)) : Except PyError (List Char) :=
  match make_lines_pieces f items with
  | .error e => .error e
  | .ok pieceLists =>
    let lines := pieceLists.map (fun ps => List.intercalate [nl] ps)
    let broken := lines.map (fun l =>
      if l.length = f.effCalc.line_width then l ++ [nl] else l ++ [nl])
    .ok (rstripNl broken.flatten)

/-! ### Arithmetic facts about ceiling division -/

theorem cdiv_zero_left (m : Nat) : cdiv 0 m = 0 := by
  unfold cdiv
  rcases Nat.eq_zero_or_pos m with h | h
  · subst h; rfl
  · exact Nat.div_eq_of_lt (by omega)

theorem cdiv_le_iff {m : Nat} (hm : 0 < m) (a c : Nat) : cdiv a m ≤ c ↔ a ≤ c * m := by
  unfold cdiv
  rw [Nat.div_le_iff_le_mul_add_pred hm]
  have h1 : 1 ≤ m := hm
  constructor
  · intro h
    have := Nat.mul_comm m c
    omega
  · intro h
    have := Nat.mul_comm m c
    omega

theorem lt_cdiv_iff {m : Nat} (hm : 0 < m) (a c : Nat) : c < cdiv a m ↔ c * m < a := by
  constructor
  · intro h
    by_contra hc
    exact absurd ((cdiv_le_iff hm a c).mpr (by omega)) (by omega)
  · intro h
    by_contra hc
    have := (cdiv_le_iff hm a c).mp (by omega)
    omega

theorem le_mul_cdiv {m : Nat} (hm : 0 < m) (a : Nat) : a ≤ cdiv a m * m :=
  (cdiv_le_iff hm a (cdiv a m)).mp (Nat.le_refl _)

theorem cdiv_pos_iff {m : Nat} (hm : 0 < m) (a : Nat) : 0 < cdiv a m ↔ 0 < a := by
  have := lt_cdiv_iff hm a 0
  simpa using this

theorem cdiv_le_self {m : Nat} (hm : 0 < m) (a : Nat) : cdiv a m ≤ a := by
  rcases Nat.eq_zero_or_pos a with h | h
  · subst h; simp [cdiv_zero_left]
  · exact (cdiv_le_iff hm a a).mpr (Nat.le_mul_of_pos_right a hm)

theorem cdiv_cdiv_le {m : Nat} (hm : 0 < m) (a : Nat) : cdiv a (cdiv a m) ≤ m := by
  rcases Nat.eq_zero_or_pos a with h | h
  · subst h
    simp [cdiv_zero_left]
  · have hpos : 0 < cdiv a m := (cdiv_pos_iff hm a).mpr h
    exact (cdiv_le_iff hpos a m).mpr (by
      have := le_mul_cdiv hm a
      calc a ≤ cdiv a m * m := this
        _ = m * cdiv a m := Nat.mul_comm _ _)

/-- Applying n ↦ ceil(a / n) three times equals applying it once; this is the
reason the num_lines / column-count pairing of the calculator is involutive. -/
theorem cdiv_triple {m : Nat} (hm : 0 < m) (a : Nat) :
    cdiv a (cdiv a (cdiv a m)) = cdiv a m := by
  rcases Nat.eq_zero_or_pos a with h | h
  · subst h
    simp [cdiv_zero_left]
  · have ha : 0 < cdiv a m := (cdiv_pos_iff hm a).mpr h
    have hb : 0 < cdiv a (cdiv a m) := (cdiv_pos_iff ha a).mpr h
    apply Nat.le_antisymm
    · rw [cdiv_le_iff hb a (cdiv a m)]
      have h1 := le_mul_cdiv ha a
      have h2 := Nat.mul_comm (cdiv a (cdiv a m)) (cdiv a m)
      omega
    · by_contra hlt
      push_neg at hlt
      have h1 : cdiv a (cdiv a (cdiv a m)) < cdiv a m := hlt
      have h2 : cdiv a (cdiv a (cdiv a m)) * cdiv a (cdiv a m) < a := by
        have hx : cdiv a (cdiv a (cdiv a m)) ≤ cdiv a m - 1 := by omega
        have hy : (cdiv a m - 1) * m < a := by
          have := (lt_cdiv_iff hm a (cdiv a m - 1)).mp (by omega)
          exact this
        have hz : cdiv a (cdiv a m) ≤ m := cdiv_cdiv_le hm a
        calc cdiv a (cdiv a (cdiv a m)) * cdiv a (cdiv a m)
            ≤ (cdiv a m - 1) * cdiv a (cdiv a m) := Nat.mul_le_mul_right _ hx
          _ ≤ (cdiv a m - 1) * m := Nat.mul_le_mul_left _ hz
          _ < a := hy
      have := le_mul_cdiv hb a
      omega

/-- The divmod-with-remainder form of num_lines in get_unchecked_column_config
equals ceiling division. -/
theorem divmod_round_up {k : Nat} (hk : 0 < k) (n : Nat) :
    (if n % k = 0 then n / k else n / k + 1) = cdiv n k := by
  rcases Nat.eq_zero_or_pos n with h | h
  · subst h; simp [cdiv_zero_left, Nat.zero_div, Nat.zero_mod]
  · have hd := Nat.div_add_mod n k
    have hm := Nat.mod_lt n hk
    by_cases h0 : n % k = 0
    · rw [if_pos h0]
      unfold cdiv
      rw [show n + k - 1 = k * (n / k) + (k - 1) from by omega,
        Nat.mul_add_div hk, Nat.div_eq_of_lt (show k - 1 < k from by omega)]
      omega
    · rw [if_neg h0]
      unfold cdiv
      have e1 : k * (n / k + 1) = k * (n / k) + k := by ring
      rw [show n + k - 1 = k * (n / k + 1) + (n % k - 1) from by omega,
        Nat.mul_add_div hk, Nat.div_eq_of_lt (show n % k - 1 < k from by omega)]

theorem unchecked_num_lines {k : Nat} (hk : 0 < k) (iw : List Nat) :
    (get_unchecked_column_config iw k).num_lines = cdiv iw.length k := by
  unfold get_unchecked_column_config
  simpa using divmod_round_up hk iw.length

theorem columnWidthsOf_length (iw : List Nat) (nl : Nat) :
    (columnWidthsOf iw nl).length = cdiv iw.length nl := by
  simp [columnWidthsOf]

theorem unchecked_widths_length {k : Nat} (hk : 0 < k) (iw : List Nat) :
    (get_unchecked_column_config iw k).column_widths.length =
      cdiv iw.length (cdiv iw.length k) := by
  have h := unchecked_num_lines hk iw
  unfold get_unchecked_column_config at *
  simp only at h
  simp [columnWidthsOf_length, h]

/-- A produced configuration never has more columns than requested. -/
theorem unchecked_widths_le {k : Nat} (hk : 0 < k) (iw : List Nat) :
    (get_unchecked_column_config iw k).column_widths.length ≤ k := by
  rw [unchecked_widths_length hk]
  rcases Nat.eq_zero_or_pos iw.length with h | h
  · rw [h]
    simp [cdiv_zero_left]
  · exact Nat.le_trans (Nat.le_refl _) (by
      have h1 : 0 < cdiv iw.length k := (cdiv_pos_iff hk _).mpr h
      exact (cdiv_le_iff h1 _ _).mpr (by
        have h2 := le_mul_cdiv hk iw.length
        have h3 := Nat.mul_comm (cdiv iw.length k) k
        omega))

/-! ### Facts about Python min / max over non-empty lists -/

theorem foldl_min_le_init (xs : List Nat) (x : Nat) : xs.foldl Nat.min x ≤ x := by
  induction xs generalizing x with
  | nil => exact Nat.le_refl x
  | cons y ys ih => exact Nat.le_trans (ih (Nat.min x y)) (Nat.min_le_left x y)

theorem foldl_min_le_mem {y : Nat} {xs : List Nat} (h : y ∈ xs) (x : Nat) :
    xs.foldl Nat.min x ≤ y := by
  induction xs generalizing x with
  | nil => cases h
  | cons z zs ih =>
    rcases List.mem_cons.mp h with rfl | hz
    · exact Nat.le_trans (foldl_min_le_init zs (Nat.min x y)) (Nat.min_le_right x y)
    · exact ih hz (Nat.min x z)

theorem listMin_le_mem {y : Nat} {l : List Nat} (h : y ∈ l) : listMin l ≤ y := by
  cases l with
  | nil => cases h
  | cons x xs =>
    rcases List.mem_cons.mp h with rfl | hx
    · exact foldl_min_le_init xs y
    · exact foldl_min_le_mem hx x

theorem init_le_foldl_max (xs : List Nat) (x : Nat) : x ≤ xs.foldl Nat.max x := by
  induction xs generalizing x with
  | nil => exact Nat.le_refl x
  | cons y ys ih => exact Nat.le_trans (Nat.le_max_left x y) (ih (Nat.max x y))

theorem mem_le_foldl_max {y : Nat} {xs : List Nat} (h : y ∈ xs) (x : Nat) :
    y ≤ xs.foldl Nat.max x := by
  induction xs generalizing x with
  | nil => cases h
  | cons z zs ih =>
    rcases List.mem_cons.mp h with rfl | hz
    · exact Nat.le_trans (Nat.le_max_right x y) (init_le_foldl_max zs (Nat.max x y))
    · exact ih hz (Nat.max x z)

theorem mem_le_listMax {y : Nat} {l : List Nat} (h : y ∈ l) : y ≤ listMax l := by
  cases l with
  | nil => cases h
  | cons x xs =>
    rcases List.mem_cons.mp h with rfl | hx
    · exact init_le_foldl_max xs y
    · exact mem_le_foldl_max hx x

theorem foldl_max_mem_or (xs : List Nat) (x : Nat) :
    xs.foldl Nat.max x = x ∨ xs.foldl Nat.max x ∈ xs := by
  induction xs generalizing x with
  | nil => exact Or.inl rfl
  | cons y ys ih =>
    rcases ih (Nat.max x y) with h | h
    · rcases Nat.le_total y x with hxy | hxy
      · refine Or.inl ?_
        rw [List.foldl_cons, h]
        exact Nat.max_eq_left hxy
      · refine Or.inr (List.mem_cons.mpr (Or.inl ?_))
        rw [List.foldl_cons, h]
        exact Nat.max_eq_right hxy
    · exact Or.inr (List.mem_cons.mpr (Or.inr h))

theorem listMax_mem {l : List Nat} (h : l ≠ []) : listMax l ∈ l := by
  cases l with
  | nil => exact absurd rfl h
  | cons x xs =>
    rcases foldl_max_mem_or xs x with h1 | h1
    · exact List.mem_cons.mpr (Or.inl h1)
    · exact List.mem_cons.mpr (Or.inr h1)

theorem foldl_max_le {xs : List Nat} {x b : Nat} (hx : x ≤ b)
    (h : ∀ y ∈ xs, y ≤ b) : xs.foldl Nat.max x ≤ b := by
  induction xs generalizing x with
  | nil => exact hx
  | cons y ys ih =>
    exact ih (Nat.max_le.mpr ⟨hx, h y (List.mem_cons_self y ys)⟩)
      (fun z hz => h z (List.mem_cons.mpr (Or.inr hz)))

theorem listMax_le {l : List Nat} {b : Nat} (h : ∀ y ∈ l, y ≤ b) : listMax l ≤ b := by
  cases l with
  | nil => exact Nat.zero_le b
  | cons x xs =>
    exact foldl_max_le (h x (List.mem_cons_self x xs))
      (fun z hz => h z (List.mem_cons.mpr (Or.inr hz)))

/-! ### Facts about the column grouping -/

theorem columnWidthsOf_getElem (iw : List Nat) (nl j : Nat)
    (hj : j < (columnWidthsOf iw nl).length) :
    (columnWidthsOf iw nl)[j] = listMax ((iw.drop (j * nl)).take nl) := by
  simp [columnWidthsOf]

theorem mem_columnWidthsOf {w : Nat} {iw : List Nat} {nl : Nat} :
    w ∈ columnWidthsOf iw nl ↔
      ∃ j, j < cdiv iw.length nl ∧ w = listMax ((iw.drop (j * nl)).take nl) := by
  simp [columnWidthsOf, List.mem_map, List.mem_range, eq_comm]

/-- The group of column j is non-empty and its first element is item j*nl. -/
theorem slice_head_mem {iw : List Nat} {nl j : Nat} (hnl : 0 < nl)
    (hj : j < cdiv iw.length nl) :
    ∃ y ∈ (iw.drop (j * nl)).take nl, y ∈ iw := by
  have hlt : j * nl < iw.length := (lt_cdiv_iff hnl iw.length j).mp hj
  have hd : 0 < (iw.drop (j * nl)).length := by
    rw [List.length_drop]; omega
  have ht : 0 < ((iw.drop (j * nl)).take nl).length := by
    rw [List.length_take]; omega
  refine ⟨((iw.drop (j * nl)).take nl)[0], List.getElem_mem ht, ?_⟩
  rw [List.getElem_take, List.getElem_drop]
  exact List.getElem_mem (by omega)

/-- Every computed column width is at least the smallest item width. -/
theorem columnWidthsOf_lower {iw : List Nat} {nl : Nat} (hnl : 0 < nl) :
    ∀ w ∈ columnWidthsOf iw nl, listMin iw ≤ w := by
  intro w hw
  rcases mem_columnWidthsOf.mp hw with ⟨j, hj, rfl⟩
  rcases slice_head_mem hnl hj with ⟨y, hy1, hy2⟩
  exact Nat.le_trans (listMin_le_mem hy2) (mem_le_listMax hy1)

/-- Every computed column width is at most the widest item width. -/
theorem columnWidthsOf_upper {iw : List Nat} {nl : Nat} :
    ∀ w ∈ columnWidthsOf iw nl, w ≤ listMax iw := by
  intro w hw
  rcases mem_columnWidthsOf.mp hw with ⟨j, hj, rfl⟩
  exact listMax_le (fun y hy =>
    mem_le_listMax (List.mem_of_mem_drop (List.mem_of_mem_take hy)))

/-- The column holding the widest item has width at least that item. -/
theorem columnWidthsOf_exists_widest {iw : List Nat} {nl : Nat} (hnl : 0 < nl)
    (hne : iw ≠ []) :
    ∃ w ∈ columnWidthsOf iw nl, listMax iw ≤ w := by
  have hmem := listMax_mem hne
  rcases List.getElem_of_mem hmem with ⟨m, hm, hget⟩
  have hq : m / nl * nl ≤ m := Nat.div_mul_le_self m nl
  have hr : m % nl < nl := Nat.mod_lt m hnl
  have hdm : m / nl * nl + m % nl = m := by
    have h := Nat.div_add_mod m nl
    have hc : nl * (m / nl) = m / nl * nl := Nat.mul_comm _ _
    omega
  have hj : m / nl < cdiv iw.length nl := by
    rw [lt_cdiv_iff hnl]
    exact Nat.lt_of_le_of_lt hq hm
  have hlen : m / nl < (columnWidthsOf iw nl).length := by
    rw [columnWidthsOf_length]; exact hj
  refine ⟨(columnWidthsOf iw nl)[m / nl], List.getElem_mem hlen, ?_⟩
  rw [columnWidthsOf_getElem]
  have hidx : m % nl < ((iw.drop (m / nl * nl)).take nl).length := by
    rw [List.length_take, List.length_drop]
    omega
  have hval : ((iw.drop (m / nl * nl)).take nl)[m % nl] = iw[m] := by
    rw [List.getElem_take, List.getElem_drop]
    exact getElem_congr hdm
  calc listMax iw = iw[m] := hget.symm
    _ = ((iw.drop (m / nl * nl)).take nl)[m % nl] := hval.symm
    _ ≤ listMax ((iw.drop (m / nl * nl)).take nl) := mem_le_listMax (List.getElem_mem hidx)

/-! ### Facts about the candidate scan of iter_column_configs -/

theorem iter_aux_zero (iw : List Nat) (f : Nat) : iter_aux iw f 0 = [] := by
  cases f <;> rfl

theorem iter_aux_succ (iw : List Nat) (f mc : Nat) :
    iter_aux iw (f + 1) (mc + 1) =
      get_unchecked_column_config iw (mc + 1) ::
        iter_aux iw f ((get_unchecked_column_config iw (mc + 1)).column_widths.length - 1) :=
  rfl

/-- The loop variable strictly decreases, so any fuel of at least the initial
max_columns produces the same candidate list: the fuel is an artefact of the
embedding, not of the Python loop. -/
theorem iter_aux_fuel (iw : List Nat) :
    ∀ mc f g, mc ≤ f → mc ≤ g → iter_aux iw f mc = iter_aux iw g mc := by
  intro mc
  induction mc using Nat.strong_induction_on with
  | _ mc ih =>
    intro f g hf hg
    cases mc with
    | zero => rw [iter_aux_zero, iter_aux_zero]
    | succ m =>
      cases f with
      | zero => omega
      | succ f' =>
        cases g with
        | zero => omega
        | succ g' =>
          rw [iter_aux_succ, iter_aux_succ]
          congr 1
          have hlen : (get_unchecked_column_config iw (m + 1)).column_widths.length ≤ m + 1 :=
            unchecked_widths_le (by omega) iw
          exact ih ((get_unchecked_column_config iw (m + 1)).column_widths.length - 1)
            (by omega) f' g' (by omega) (by omega)

theorem iter_column_configs_succ (iw : List Nat) (mc : Nat) (h : 0 < mc) :
    iter_column_configs iw mc =
      get_unchecked_column_config iw mc ::
        iter_column_configs iw
          ((get_unchecked_column_config iw mc).column_widths.length - 1) := by
  obtain ⟨m, rfl⟩ : ∃ m, mc = m + 1 := ⟨mc - 1, by omega⟩
  unfold iter_column_configs
  rw [iter_aux_succ]
  congr 1
  have hlen : (get_unchecked_column_config iw (m + 1)).column_widths.length ≤ m + 1 :=
    unchecked_widths_le (by omega) iw
  exact iter_aux_fuel iw _ m _ (by omega) (Nat.le_refl _)

/-- Every yielded candidate is get_unchecked_column_config at some positive
column count bounded by the initial max_columns. -/
theorem iter_mem_shape {iw : List Nat} {cfg : ColumnConfig} :
    ∀ mc, cfg ∈ iter_column_configs iw mc →
      ∃ k, 0 < k ∧ k ≤ mc ∧ cfg = get_unchecked_column_config iw k := by
  intro mc
  induction mc using Nat.strong_induction_on with
  | _ mc ih =>
    intro hmem
    rcases Nat.eq_zero_or_pos mc with h0 | hpos
    · subst h0
      rw [iter_column_configs, iter_aux_zero] at hmem
      cases hmem
    · rw [iter_column_configs_succ iw mc hpos] at hmem
      rcases List.mem_cons.mp hmem with rfl | htail
      · exact ⟨mc, hpos, Nat.le_refl _, rfl⟩
      · have hlen : (get_unchecked_column_config iw mc).column_widths.length ≤ mc :=
          unchecked_widths_le hpos iw
        rcases ih ((get_unchecked_column_config iw mc).column_widths.length - 1)
            (by omega) htail with ⟨k, hk0, hkle, hkeq⟩
        exact ⟨k, hk0, by omega, hkeq⟩

theorem iter_mem_length_le {iw : List Nat} {cfg : ColumnConfig} {mc : Nat}
    (h : cfg ∈ iter_column_configs iw mc) : cfg.column_widths.length ≤ mc := by
  rcases iter_mem_shape mc h with ⟨k, hk0, hkle, rfl⟩
  exact Nat.le_trans (unchecked_widths_le hk0 iw) hkle

/-- Along the candidate list the number of columns strictly decreases. -/
theorem iter_pairwise (iw : List Nat) :
    ∀ mc, (iter_column_configs iw mc).Pairwise
      (fun a b => b.column_widths.length < a.column_widths.length) := by
  intro mc
  induction mc using Nat.strong_induction_on with
  | _ mc ih =>
    rcases Nat.eq_zero_or_pos mc with h0 | hpos
    · subst h0
      rw [iter_column_configs, iter_aux_zero]
      exact List.Pairwise.nil
    · rw [iter_column_configs_succ iw mc hpos]
      have hlen : (get_unchecked_column_config iw mc).column_widths.length ≤ mc :=
        unchecked_widths_le hpos iw
      refine List.pairwise_cons.mpr ⟨?_, ih _ (by omega)⟩
      intro b hb
      have hble := iter_mem_length_le hb
      rcases Nat.eq_zero_or_pos
          (get_unchecked_column_config iw mc).column_widths.length with hz | hz
      · rw [hz] at hb
        rw [iter_column_configs, iter_aux_zero] at hb
        cases hb
      · omega

theorem unchecked_widths_pos {k : Nat} (hk : 0 < k) {iw : List Nat} (hne : iw ≠ []) :
    0 < (get_unchecked_column_config iw k).column_widths.length := by
  have hN : 0 < iw.length := List.length_pos.mpr hne
  rw [unchecked_widths_length hk]
  exact (cdiv_pos_iff ((cdiv_pos_iff hk _).mpr hN) _).mpr hN

theorem columnWidthsOf_self {iw : List Nat} (hne : iw ≠ []) :
    columnWidthsOf iw iw.length = [listMax iw] := by
  have hN : 0 < iw.length := List.length_pos.mpr hne
  have h1 : cdiv iw.length iw.length = 1 := by
    apply Nat.le_antisymm
    · exact (cdiv_le_iff hN _ _).mpr (by omega)
    · exact (cdiv_pos_iff hN _).mpr hN
  unfold columnWidthsOf
  rw [h1, show List.range 1 = [0] from rfl, List.map_cons, List.map_nil, Nat.zero_mul,
    List.drop_zero, List.take_length]

theorem unchecked_one {iw : List Nat} (hne : iw ≠ []) :
    get_unchecked_column_config iw 1 = ⟨[listMax iw], iw.length⟩ := by
  unfold get_unchecked_column_config
  simp [Nat.mod_one, Nat.div_one, columnWidthsOf_self hne]

/-- The scan always ends with the single-column configuration, whose only
width is the widest item width. -/
theorem single_col_mem {iw : List Nat} (hne : iw ≠ []) :
    ∀ mc, 0 < mc →
      (⟨[listMax iw], iw.length⟩ : ColumnConfig) ∈ iter_column_configs iw mc := by
  have hN : 0 < iw.length := List.length_pos.mpr hne
  intro mc
  induction mc using Nat.strong_induction_on with
  | _ mc ih =>
    intro hpos
    rw [iter_column_configs_succ iw mc hpos]
    have hnl : (get_unchecked_column_config iw mc).num_lines = cdiv iw.length mc :=
      unchecked_num_lines hpos iw
    have hnl_pos : 0 < cdiv iw.length mc := (cdiv_pos_iff hpos _).mpr hN
    have hlenw : (get_unchecked_column_config iw mc).column_widths.length =
        cdiv iw.length (cdiv iw.length mc) := unchecked_widths_length hpos iw
    by_cases hl : (get_unchecked_column_config iw mc).column_widths.length = 1
    · refine List.mem_cons.mpr (Or.inl ?_)
      have hup : cdiv iw.length mc ≤ iw.length := cdiv_le_self hpos _
      have hdn : iw.length ≤ cdiv iw.length mc := by
        have := (cdiv_le_iff hnl_pos iw.length 1).mp (by omega)
        omega
      have heqnl : cdiv iw.length mc = iw.length := Nat.le_antisymm hup hdn
      have : get_unchecked_column_config iw mc =
          ⟨columnWidthsOf iw (cdiv iw.length mc), cdiv iw.length mc⟩ := by
        unfold get_unchecked_column_config
        simp only
        rw [divmod_round_up hpos]
      rw [this, heqnl, columnWidthsOf_self hne]
    · have hposlen : 0 < (get_unchecked_column_config iw mc).column_widths.length :=
        unchecked_widths_pos hpos hne
      have hle : (get_unchecked_column_config iw mc).column_widths.length ≤ mc :=
        unchecked_widths_le hpos iw
      exact List.mem_cons.mpr (Or.inr
        (ih ((get_unchecked_column_config iw mc).column_widths.length - 1)
          (by omega) (by omega)))

/-- find? over a list with strictly decreasing column counts returns a
satisfying element of maximal column count. -/
theorem find_first_max {p : ColumnConfig → Bool} :
    ∀ l : List ColumnConfig,
      l.Pairwise (fun a b => b.column_widths.length < a.column_widths.length) →
      ∀ {x}, l.find? p = some x →
        p x = true ∧
          ∀ y ∈ l, p y = true → y.column_widths.length ≤ x.column_widths.length := by
  intro l
  induction l with
  | nil => intro _ x h; cases h
  | cons a as ih =>
    intro hp x hfind
    rcases List.pairwise_cons.mp hp with ⟨ha, htail⟩
    by_cases hpa : p a = true
    · rw [List.find?_cons_of_pos _ hpa] at hfind
      cases hfind
      refine ⟨hpa, fun y hy hpy => ?_⟩
      rcases List.mem_cons.mp hy with rfl | hmem
      · exact Nat.le_refl _
      · exact Nat.le_of_lt (ha y hmem)
    · rw [List.find?_cons_of_neg _ hpa] at hfind
      rcases ih htail hfind with ⟨hx, hbound⟩
      refine ⟨hx, fun y hy hpy => ?_⟩
      rcases List.mem_cons.mp hy with rfl | hmem
      · exact absurd hpy hpa
      · exact hbound y hmem hpy

/-! ### Facts about the shrink loop -/

theorem shrink_aux_nil (minw : Nat) (off : Int) (acc : List Nat) :
    shrink_aux minw off [] acc = (off, acc) := rfl

theorem shrink_aux_cons (minw : Nat) (off : Int) (w : Nat) (rest acc : List Nat) :
    shrink_aux minw off (w :: rest) acc =
      if off ≤ 0 then (off, acc)
      else if w ≤ minw then shrink_aux minw off rest (w :: acc)
      else
        shrink_aux minw
          (off - ((w : Int) -
            ((if (w : Int) - off < (minw : Int) then minw
              else ((w : Int) - off).toNat : Nat) : Int)))
          rest
          ((if (w : Int) - off < (minw : Int) then minw
            else ((w : Int) - off).toNat) :: acc) := rfl

/-- The per-column relation maintained by shrinking: a width is never
increased and never dropped below min(w, minw); a column already at or below
the minimum keeps its exact width. -/
def shrinkRel (minw : Nat) (w n : Nat) : Prop := Nat.min w minw ≤ n ∧ n ≤ w

theorem forall2_sum_le {minw : Nat} :
    ∀ {l1 l2 : List Nat}, List.Forall₂ (shrinkRel minw) l1 l2 → l2.sum ≤ l1.sum := by
  intro l1 l2 h
  induction h with
  | nil => exact Nat.le_refl 0
  | cons hab _ ih =>
    rw [List.sum_cons, List.sum_cons]
    exact Nat.add_le_add hab.2 ih

theorem forall2_sum_ge {minw : Nat} :
    ∀ {l1 l2 : List Nat}, List.Forall₂ (shrinkRel minw) l1 l2 →
      (l1.map (fun w => Nat.min w minw)).sum ≤ l2.sum := by
  intro l1 l2 h
  induction h with
  | nil => exact Nat.le_refl 0
  | cons hab _ ih =>
    rw [List.map_cons, List.sum_cons, List.sum_cons]
    exact Nat.add_le_add hab.1 ih

theorem sum_map_min_le (minw : Nat) (l : List Nat) :
    (l.map (fun w => Nat.min w minw)).sum ≤ l.sum := by
  induction l with
  | nil => exact Nat.le_refl 0
  | cons w rest ih =>
    rw [List.map_cons, List.sum_cons, List.sum_cons]
    exact Nat.add_le_add (Nat.min_le_left w minw) ih

/-- Master invariant of the shrink loop. -/
theorem shrink_aux_spec (minw : Nat) :
    ∀ (rev : List Nat) (off : Int) (acc : List Nat),
      ∃ proc : List Nat,
        (shrink_aux minw off rev acc).2 = proc.reverse ++ acc ∧
        proc.length ≤ rev.length ∧
        (shrink_aux minw off rev acc).1 =
          off - (((rev.take proc.length).sum : Int) - (proc.sum : Int)) ∧
        List.Forall₂ (shrinkRel minw) (rev.take proc.length) proc ∧
        ((shrink_aux minw off rev acc).1 ≤ 0 ∨ proc.length = rev.length) ∧
        (0 < (shrink_aux minw off rev acc).1 →
          proc = rev.map (fun w => Nat.min w minw)) := by
  intro rev
  induction rev with
  | nil =>
    intro off acc
    refine ⟨[], ?_, ?_, ?_, ?_, ?_, ?_⟩ <;>
      simp [shrink_aux_nil]
  | cons w rest ih =>
    intro off acc
    rw [shrink_aux_cons]
    by_cases h0 : off ≤ 0
    · rw [if_pos h0]
      refine ⟨[], by simp, by simp, by simp, List.Forall₂.nil, Or.inl h0, ?_⟩
      intro hc
      simp only at hc
      omega
    · rw [if_neg h0]
      push_neg at h0
      by_cases hw : w ≤ minw
      · rw [if_pos hw]
        obtain ⟨proc, hacc, hlen, hoff, hfa, hstop, hfloor⟩ := ih off (w :: acc)
        refine ⟨w :: proc, ?_, ?_, ?_, ?_, ?_, ?_⟩
        · rw [hacc, List.reverse_cons, List.append_assoc]
          rfl
        · simpa using Nat.succ_le_succ hlen
        · rw [hoff]
          simp only [List.length_cons, List.take_succ_cons, List.sum_cons]
          push_cast
          ring
        · exact List.Forall₂.cons ⟨Nat.min_le_left w minw, Nat.le_refl w⟩ hfa
        · rcases hstop with h | h
          · exact Or.inl h
          · exact Or.inr (by simp [h])
        · intro hpos
          have := hfloor hpos
          rw [List.map_cons, this]
          congr 1
          exact (Nat.min_eq_left hw).symm
      · rw [if_neg hw]
        push_neg at hw
        set nw : Nat :=
          if (w : Int) - off < (minw : Int) then minw else ((w : Int) - off).toNat with hnw
        have hnw_ge : minw ≤ nw := by
          rw [hnw]
          split
          · exact Nat.le_refl minw
          · rename_i hcond
            push_neg at hcond
            omega
        have hnw_le : nw ≤ w := by
          rw [hnw]
          split
          · omega
          · rename_i hcond
            push_neg at hcond
            omega
        obtain ⟨proc, hacc, hlen, hoff, hfa, hstop, hfloor⟩ :=
          ih (off - ((w : Int) - (nw : Int))) (nw :: acc)
        refine ⟨nw :: proc, ?_, ?_, ?_, ?_, ?_, ?_⟩
        · rw [hacc, List.reverse_cons, List.append_assoc]
          rfl
        · simpa using Nat.succ_le_succ hlen
        · rw [hoff]
          simp only [List.length_cons, List.take_succ_cons, List.sum_cons]
          push_cast
          ring
        · exact List.Forall₂.cons ⟨Nat.le_trans (Nat.min_le_right w minw) hnw_ge, hnw_le⟩ hfa
        · rcases hstop with h | h
          · exact Or.inl h
          · exact Or.inr (by simp [h])
        · intro hpos
          have hrest := hfloor hpos
          have hsum_le : (proc.sum : Int) ≤ ((rest.take proc.length).sum : Int) := by
            exact_mod_cast forall2_sum_le hfa
          have hfin_le : (shrink_aux minw (off - ((w : Int) - (nw : Int))) rest (nw :: acc)).1
              ≤ off - ((w : Int) - (nw : Int)) := by
            rw [hoff]
            omega
          have hnw_eq : nw = minw := by
            by_cases hcond : (w : Int) - off < (minw : Int)
            · rw [hnw, if_pos hcond]
            · exfalso
              have hnwv : (nw : Int) = (w : Int) - off := by
                rw [hnw, if_neg hcond]
                push_neg at hcond
                omega
              have hz : off - ((w : Int) - (nw : Int)) = 0 := by omega
              omega
          rw [List.map_cons, hrest, hnw_eq]
          congr 1
          exact (Nat.min_eq_right (Nat.le_of_lt hw)).symm

theorem shrinkRel_refl (minw : Nat) : ∀ ws : List Nat, List.Forall₂ (shrinkRel minw) ws ws := by
  intro ws
  induction ws with
  | nil => exact List.Forall₂.nil
  | cons w rest ih => exact List.Forall₂.cons ⟨Nat.min_le_left w minw, Nat.le_refl w⟩ ih

/-- On success, shrinking relates every output width to its input width by
shrinkRel (so lengths are equal, no width grows, a width at or below the
minimum is untouched, others never drop below the minimum), and the result
fits in the line. -/
theorem shrink_ok_spec {c : Calc} {minw : Nat} {ws r : List Nat}
    (h : shrink_column_widths c minw ws = .ok r) :
    List.Forall₂ (shrinkRel minw) ws r ∧
      get_used_line_width c r ≤ (c.line_width : Int) := by
  obtain ⟨proc, hacc, hlen, hoff, hfa, _, _⟩ :=
    shrink_aux_spec minw ws.reverse (get_used_line_width c ws - (c.line_width : Int)) []
  rw [List.length_reverse] at hlen
  unfold shrink_column_widths at h
  simp only at h
  set res := shrink_aux minw (get_used_line_width c ws - (c.line_width : Int)) ws.reverse []
    with hres
  rw [List.append_nil] at hacc
  by_cases hpos : res.1 > 0
  · rw [if_pos hpos] at h
    cases h
  · rw [if_neg hpos] at h
    push_neg at hpos
    have htk : ws.reverse.take proc.length = (ws.drop (ws.length - proc.length)).reverse :=
      List.take_reverse
    rw [htk] at hfa hoff
    have hfa2 : List.Forall₂ (shrinkRel minw)
        (ws.drop (ws.length - proc.length)) proc.reverse := by
      have h2 := List.rel_reverse hfa
      rwa [List.reverse_reverse] at h2
    by_cases hemp : res.2.isEmpty
    · rw [if_pos hemp] at h
      injection h with h
      subst h
      have hpe : proc = [] := by
        have h2 : res.2 = [] := List.isEmpty_iff.mp hemp
        rw [h2] at hacc
        simpa using hacc.symm
      subst hpe
      refine ⟨shrinkRel_refl minw ws, ?_⟩
      simp only [List.length_nil, Nat.sub_zero, List.drop_length, List.reverse_nil,
        List.sum_nil, Nat.cast_zero] at hoff
      omega
    · rw [if_neg hemp] at h
      injection h with h
      subst h
      have hk : res.2.length = proc.length := by rw [hacc, List.length_reverse]
      have hnk : ws.length - res.2.length = ws.length - proc.length := by rw [hk]
      constructor
      · conv_lhs => rw [← List.take_append_drop (ws.length - res.2.length) ws]
        rw [hnk, hacc]
        exact List.rel_append (shrinkRel_refl minw _) hfa2
      · have hlen_take : (ws.take (ws.length - proc.length)).length =
            ws.length - proc.length := by
          rw [List.length_take]
          exact Nat.min_eq_left (Nat.sub_le _ _)
        have hlen_r : (ws.take (ws.length - res.2.length) ++ res.2).length = ws.length := by
          rw [List.length_append, hnk, hlen_take, hk]
          omega
        have hsum_r : ((ws.take (ws.length - res.2.length) ++ res.2).sum : Int) =
            ((ws.take (ws.length - proc.length)).sum : Int) + (proc.sum : Int) := by
          rw [List.sum_append, hnk, hacc, List.sum_reverse]
          push_cast
          ring
        have hsum_split : (ws.sum : Int) =
            ((ws.take (ws.length - proc.length)).sum : Int) +
              ((ws.drop (ws.length - proc.length)).sum : Int) := by
          rw [← Nat.cast_add, ← List.sum_append, List.take_append_drop]
        have hrev_sum : (ws.drop (ws.length - proc.length)).reverse.sum =
            (ws.drop (ws.length - proc.length)).sum := List.sum_reverse _
        rw [hrev_sum] at hoff
        unfold get_used_line_width at hoff ⊢
        rw [hlen_r, hsum_r]
        unfold get_used_line_width at hres
        omega
/-- Shrinking fails exactly when even forcing every column to
min(width, min_shrink_width) still exceeds the allowed line width. -/
theorem shrink_error_iff {c : Calc} {minw : Nat} {ws : List Nat} :
    shrink_column_widths c minw ws = .error .lineTooSmall ↔
      (c.line_width : Int) <
        ((ws.map (fun w => Nat.min w minw)).sum : Int) +
          ((ws.length : Int) - 1) * (c.spacing : Int) := by
  obtain ⟨proc, hacc, hlen, hoff, hfa, hstop, hfloor⟩ :=
    shrink_aux_spec minw ws.reverse (get_used_line_width c ws - (c.line_width : Int)) []
  rw [List.length_reverse] at hlen
  unfold shrink_column_widths
  simp only
  set res := shrink_aux minw (get_used_line_width c ws - (c.line_width : Int)) ws.reverse []
    with hres
  have hsum_rev : ws.reverse.sum = ws.sum := List.sum_reverse ws
  have hmap_rev : (ws.reverse.map (fun w => Nat.min w minw)).sum =
      (ws.map (fun w => Nat.min w minw)).sum := by
    rw [List.map_reverse, List.sum_reverse]
  by_cases hpos : res.1 > 0
  · rw [if_pos hpos]
    refine iff_of_true rfl ?_
    have hfl := hfloor hpos
    have hk : proc.length = ws.length := by
      rcases hstop with h | h
      · omega
      · rw [← List.length_reverse ws]
        exact h
    have htake : ws.reverse.take proc.length = ws.reverse := by
      rw [hk, ← List.length_reverse ws, List.take_length]
    rw [htake, hfl] at hoff
    unfold get_used_line_width at hoff
    omega
  · rw [if_neg hpos]
    push_neg at hpos
    have hineq : ¬ ((c.line_width : Int) <
        ((ws.map (fun w => Nat.min w minw)).sum : Int) +
          ((ws.length : Int) - 1) * (c.spacing : Int)) := by
      intro hcond
      have hge : ((ws.reverse.take proc.length).map (fun w => Nat.min w minw)).sum ≤
          proc.sum := forall2_sum_ge hfa
      have e1 : (ws.reverse.take proc.length).map (fun w => Nat.min w minw) =
          (ws.reverse.map (fun w => Nat.min w minw)).take proc.length := by
        rw [List.map_take]
      have e2 : ws.reverse.sum =
          (ws.reverse.take proc.length).sum + (ws.reverse.drop proc.length).sum := by
        rw [← List.sum_append, List.take_append_drop]
      have e3 : (ws.reverse.map (fun w => Nat.min w minw)).sum =
          ((ws.reverse.map (fun w => Nat.min w minw)).take proc.length).sum +
            ((ws.reverse.map (fun w => Nat.min w minw)).drop proc.length).sum := by
        rw [← List.sum_append, List.take_append_drop]
      have e4 : ((ws.reverse.map (fun w => Nat.min w minw)).drop proc.length).sum ≤
          (ws.reverse.drop proc.length).sum := by
        rw [← List.map_drop]
        exact sum_map_min_le minw _
      rw [e1] at hge
      unfold get_used_line_width at hoff
      omega
    by_cases hemp : res.2.isEmpty
    · rw [if_pos hemp]
      exact iff_of_false (by intro h; cases h) hineq
    · rw [if_neg hemp]
      exact iff_of_false (by intro h; cases h) hineq

/-! ### Case analysis of successful calculations -/

/-- Any successful calculate_columns result arises from one of four paths:
the empty input, the allow-exceeding escape, a fitting balanced candidate
(free mode or fixed mode), or the fixed-mode shrink path. The hypothesis
that a fixed column count is positive mirrors helpers.num, which rejects
num_columns = 0. -/
theorem calculate_columns_ok_shape {c : Calc} {iw : List Nat} {cfg : ColumnConfig}
    (hvalid : ∀ k, c.num_columns = some k → 0 < k)
    (h : calculate_columns c iw = .ok cfg) :
    (iw = [] ∧ cfg = ⟨[], 0⟩) ∨
    (iw ≠ [] ∧ cfg = ⟨[c.line_width], iw.length⟩) ∨
    (iw ≠ [] ∧ ∃ k, 0 < k ∧ cfg = get_unchecked_column_config iw k ∧
      fits_in_line c cfg.column_widths = true) ∨
    (iw ≠ [] ∧ ∃ k minw, 0 < k ∧ c.num_columns = some k ∧ c.min_shrink_width = some minw ∧
      cfg.num_lines = (get_unchecked_column_config iw k).num_lines ∧
      shrink_column_widths c minw (get_unchecked_column_config iw k).column_widths =
        .ok cfg.column_widths) := by
  unfold calculate_columns at h
  split at h
  · rename_i hemp
    injection h with h
    exact Or.inl ⟨List.isEmpty_iff.mp hemp, h.symm⟩
  · rename_i hemp
    have hne : iw ≠ [] := fun hc => hemp (by rw [hc]; rfl)
    split at h
    · rename_i cfg0 hg
      injection h with h
      subst h
      unfold get_column_config at hg
      split at hg
      · rename_i hnc
        unfold find_fitting_config at hg
        split at hg
        · cases hg
        · rename_i mc hmc
          split at hg
          · rename_i cfg1 hfind
            injection hg with hg
            subst hg
            have hfits := List.find?_some hfind
            have hmem := List.mem_of_find?_eq_some hfind
            rcases iter_mem_shape mc hmem with ⟨k, hk0, _, hkeq⟩
            exact Or.inr (Or.inr (Or.inl ⟨hne, k, hk0, hkeq, hfits⟩))
          · cases hg
      · rename_i k hnc
        split at hg
        · rename_i hms
          dsimp only at hg
          split at hg
          · rename_i hfit
            injection hg with hg
            subst hg
            exact Or.inr (Or.inr (Or.inl ⟨hne, k, hvalid k hnc, rfl, hfit⟩))
          · cases hg
        · rename_i minw hms
          dsimp only at hg
          split at hg
          · rename_i hfit
            injection hg with hg
            subst hg
            exact Or.inr (Or.inr (Or.inl ⟨hne, k, hvalid k hnc, rfl, hfit⟩))
          · rename_i hfit
            split at hg
            · rename_i ws1 hshr
              injection hg with hg
              subst hg
              exact Or.inr (Or.inr (Or.inr ⟨hne, k, minw, hvalid k hnc, hnc, hms, rfl, hshr⟩))
            · cases hg
    · rename_i hg
      split at h
      · injection h with h
        exact Or.inr (Or.inl ⟨hne, h.symm⟩)
      · cases h
    · rename_i e hne2 hg
      cases h

/-- Every returned configuration obeys the num_lines / column-count pairing:
the two are ceiling-division duals of the item count. -/
theorem calc_ok_invariant {c : Calc} {iw : List Nat} {cfg : ColumnConfig}
    (hvalid : ∀ k, c.num_columns = some k → 0 < k)
    (h : calculate_columns c iw = .ok cfg) :
    (iw = [] → cfg = ⟨[], 0⟩) ∧
    (iw ≠ [] → 0 < cfg.column_widths.length ∧ 0 < cfg.num_lines ∧
      cfg.column_widths.length = cdiv iw.length cfg.num_lines ∧
      cfg.num_lines = cdiv iw.length cfg.column_widths.length) := by
  rcases calculate_columns_ok_shape hvalid h with
    ⟨hemp, rfl⟩ | ⟨hne, rfl⟩ | ⟨hne, k, hk0, rfl, _⟩ | ⟨hne, k, minw, hk0, _, _, hnl, hshr⟩
  · exact ⟨fun _ => rfl, fun hne => absurd hemp hne⟩
  · refine ⟨fun hc => absurd hc hne, fun _ => ?_⟩
    have hN : 0 < iw.length := List.length_pos.mpr hne
    have h1 : cdiv iw.length 1 = iw.length := by
      unfold cdiv
      simp
    refine ⟨by simp, by simpa using hN, ?_, ?_⟩
    · simp only [List.length_cons, List.length_nil]
      have : cdiv iw.length iw.length = 1 := by
        apply Nat.le_antisymm
        · exact (cdiv_le_iff hN _ _).mpr (by omega)
        · exact (cdiv_pos_iff hN _).mpr hN
      simpa using this.symm
    · simpa using h1.symm
  · refine ⟨fun hc => absurd hc hne, fun _ => ?_⟩
    have hN : 0 < iw.length := List.length_pos.mpr hne
    have hnl := unchecked_num_lines hk0 iw
    have hwl := unchecked_widths_length hk0 iw
    have hnl_pos : 0 < cdiv iw.length k := (cdiv_pos_iff hk0 _).mpr hN
    refine ⟨unchecked_widths_pos hk0 hne, by rw [hnl]; exact hnl_pos, ?_, ?_⟩
    · rw [hwl, hnl]
    · rw [hwl, hnl, cdiv_triple hk0]
  · refine ⟨fun hc => absurd hc hne, fun _ => ?_⟩
    have hN : 0 < iw.length := List.length_pos.mpr hne
    have hlen_eq : cfg.column_widths.length =
        (get_unchecked_column_config iw k).column_widths.length :=
      (List.Forall₂.length_eq (shrink_ok_spec hshr).1).symm
    have hnl0 := unchecked_num_lines hk0 iw
    have hwl := unchecked_widths_length hk0 iw
    have hnl_pos : 0 < cdiv iw.length k := (cdiv_pos_iff hk0 _).mpr hN
    refine ⟨?_, ?_, ?_, ?_⟩
    · rw [hlen_eq]
      exact unchecked_widths_pos hk0 hne
    · rw [hnl, hnl0]
      exact hnl_pos
    · rw [hlen_eq, hwl, hnl, hnl0]
    · rw [hlen_eq, hwl, hnl, hnl0, cdiv_triple hk0]

/-- Every returned configuration fits the allowed line width, including the
allow-exceeding escape (whose single column is exactly the line width). -/
theorem calc_ok_fits {c : Calc} {iw : List Nat} {cfg : ColumnConfig}
    (hvalid : ∀ k, c.num_columns = some k → 0 < k)
    (h : calculate_columns c iw = .ok cfg) :
    get_used_line_width c cfg.column_widths ≤ (c.line_width : Int) := by
  rcases calculate_columns_ok_shape hvalid h with
    ⟨hemp, rfl⟩ | ⟨hne, rfl⟩ | ⟨hne, k, hk0, rfl, hfit⟩ | ⟨hne, k, minw, hk0, _, _, hnl, hshr⟩
  · unfold get_used_line_width
    simp only [List.sum_nil, List.length_nil]
    omega
  · unfold get_used_line_width
    simp only [List.sum_cons, List.sum_nil, List.length_cons, List.length_nil]
    push_cast
    ring_nf
    omega
  · unfold fits_in_line at hfit
    exact of_decide_eq_true hfit
  · exact (shrink_ok_spec hshr).2

/-! ### Facts about rendering -/

/-- With the spacing adjustment of get_line_properties (odd spacing whenever
an extra separator is present), the column separator is exactly spacing
characters wide. -/
theorem colSep_length (f : Fmt) : (f.colSep f.effCalc.spacing).length = f.effCalc.spacing := by
  unfold Fmt.colSep
  cases hes : f.extra_sep with
  | none => rw [List.length_replicate]
  | some ch =>
    have hodd : f.effCalc.spacing % 2 = 1 := by
      unfold Fmt.effCalc
      by_cases hev : f.calculator.spacing % 2 = 0
      · rw [if_pos ⟨by rw [hes]; rfl, hev⟩]
        simp only
        omega
      · rw [if_neg (fun hc => hev hc.2)]
        omega
    simp only [List.length_append, List.length_replicate, List.length_cons]
    omega

theorem take_length_le {α : Type} (s : List α) (w : Nat) : (s.take w).length ≤ w := by
  rw [List.length_take]
  exact Nat.min_le_left _ _

theorem padCell_length (w : Nat) (s : List Char) : (padCell w s).length = w := by
  unfold padCell
  rw [List.length_append, List.length_replicate]
  have := take_length_le s w
  omega

theorem truncCell_length_le (w : Nat) (s : List Char) : (truncCell w s).length ≤ w :=
  take_length_le s w

theorem sum_take_le (l : List Nat) (m : Nat) : (l.take m).sum ≤ l.sum := by
  conv_rhs => rw [← List.take_append_drop m l]
  rw [List.sum_append]
  omega

/-- A rendered row of k cells is at most the sum of the first k column widths
plus (k - 1) separators. -/
theorem renderRow_length_le (sep : List Char) :
    ∀ (ws : List Nat) (cells : List (List Char)), ws.length = cells.length →
      (renderRow sep ws cells).length ≤ ws.sum + (ws.length - 1) * sep.length := by
  intro ws
  induction ws with
  | nil =>
    intro cells h
    cases cells with
    | nil => exact Nat.zero_le _
    | cons s ss => simp at h
  | cons w ws' ih =>
    intro cells hlen
    cases cells with
    | nil => simp at hlen
    | cons s ss =>
      cases ws' with
      | nil =>
        have hr : renderRow sep [w] (s :: ss) = truncCell w s := rfl
        rw [hr]
        simpa using truncCell_length_le w s
      | cons w2 ws'' =>
        have hr : renderRow sep (w :: w2 :: ws'') (s :: ss) =
            padCell w s ++ sep ++ renderRow sep (w2 :: ws'') ss := rfl
        rw [hr, List.length_append, List.length_append, padCell_length]
        have hrec := ih ss (by simpa using hlen)
        have hdist : (ws''.length + 1) * sep.length = ws''.length * sep.length + sep.length :=
          Nat.succ_mul _ _
        simp only [List.sum_cons, List.length_cons, Nat.add_sub_cancel] at hrec ⊢
        omega

theorem mapExcept_ok_forall {α β : Type} {g : α → Except PyError β} :
    ∀ {xs : List α} {ys : List β}, mapExcept g xs = .ok ys →
      ∀ y ∈ ys, ∃ x ∈ xs, g x = .ok y := by
  intro xs
  induction xs with
  | nil =>
    intro ys h y hy
    injection h with h
    subst h
    cases hy
  | cons x xs' ih =>
    intro ys h y hy
    unfold mapExcept at h
    split at h
    · cases h
    · rename_i b hb
      split at h
      · cases h
      · rename_i bs hbs
        injection h with h
        subst h
        rcases List.mem_cons.mp hy with rfl | hmem
        · exact ⟨x, List.mem_cons_self x xs', hb⟩
        · rcases ih hbs y hmem with ⟨x', hx', hgx'⟩
          exact ⟨x', List.mem_cons.mpr (Or.inr hx'), hgx'⟩

theorem mapExcept_cons_error {α β : Type} {g : α → Except PyError β} {x : α} {xs : List α}
    {e : PyError} (h : g x = .error e) : mapExcept g (x :: xs) = .error e := by
  unfold mapExcept
  rw [h]

/-- Each sub-line produced for one chunk is bounded by the total used line
width of the full configuration. -/
theorem format_chunk_line_le {f : Fmt} {props : LineProperties} {chunk : List (List Char)}
    {pieces : List (List Char)}
    (hsep : (f.colSep props.spacing).length = props.spacing)
    (h : format_chunk f props chunk = .ok pieces) :
    ∀ line ∈ pieces,
      line.length ≤ props.column_widths.sum +
        (props.column_widths.length - 1) * props.spacing := by
  intro line hline
  unfold format_chunk at h
  split at h
  · cases h
  · rename_i nw hnw
    injection h with h
    subst h
    rcases List.mem_map.mp hline with ⟨i, _, rfl⟩
    dsimp only
    have hwc_len : (wrapped_chunk chunk props.column_widths i).length =
        Nat.min chunk.length props.column_widths.length := by
      unfold wrapped_chunk
      rw [List.length_map, List.length_zip]
    have hwc_le : (wrapped_chunk chunk props.column_widths i).length ≤
        props.column_widths.length := by
      rw [hwc_len]
      exact Nat.min_le_right _ _
    have htk_len : (props.column_widths.take
        (wrapped_chunk chunk props.column_widths i).length).length =
        (wrapped_chunk chunk props.column_widths i).length := by
      rw [List.length_take]
      exact Nat.min_eq_left hwc_le
    have hrow := renderRow_length_le (f.colSep props.spacing)
      (props.column_widths.take (wrapped_chunk chunk props.column_widths i).length)
      (wrapped_chunk chunk props.column_widths i) htk_len
    rw [hsep, htk_len] at hrow
    have hsum := sum_take_le props.column_widths
      (wrapped_chunk chunk props.column_widths i).length
    have hmul : ((wrapped_chunk chunk props.column_widths i).length - 1) * props.spacing ≤
        (props.column_widths.length - 1) * props.spacing :=
      Nat.mul_le_mul_right _ (by omega)
    omega

/-- Propagation: a calculator error aborts formatting with the same error
before any output is produced. -/
theorem format_error_prop {f : Fmt} {items : List (List Char)} {e : PyError}
    (h : get_line_properties f items = .error e) :
    make_lines_pieces f items = .error e ∧ format_string f items = .error e := by
  have h1 : make_lines_pieces f items = .error e := by
    unfold make_lines_pieces
    rw [h]
  refine ⟨h1, ?_⟩
  unfold format_string
  rw [h1]

/-! ### Concrete calculators and formatters used in the claims -/

/-- The free-mode calculator of the test suite: spacing 2, line width 80. -/
def calc80 : Calc := ⟨2, 80, none, false, none⟩

/-- Free mode, spacing 2, line width 50. -/
def calc50 : Calc := ⟨2, 50, none, false, none⟩

/-- Free mode, spacing 2, line width 45. -/
def calc45 : Calc := ⟨2, 45, none, false, none⟩

/-- The degenerate free-mode calculator with zero spacing, line width 20. -/
def calcDeg : Calc := ⟨0, 20, none, false, none⟩

/-- A plain formatter (no extra separator) with the given spacing at line
width 80. -/
def fmt80 (sp : Nat) : Fmt := ⟨⟨sp, 80, none, false, none⟩, none⟩

/-! ### Claim theorems -/

/-- C5: with allow_exceeding and free mode, when no configuration fits the
code returns a single column of width line_width (80), not the widest item
width (81) promised by the calculator docstring and expected by
test_allow_exceeding; num_lines equals the item count. -/
theorem C5_escape_uses_line_width :
    calculate_columns ⟨2, 80, none, true, none⟩ [81] = .ok ⟨[80], 1⟩ ∧
      listMax [81] = 81 ∧
      calculate_columns ⟨2, 80, none, true, none⟩ [81] ≠ .ok ⟨[81], 1⟩ := by
  refine ⟨rfl, rfl, fun h => ?_⟩
  have h0 : calculate_columns ⟨2, 80, none, true, none⟩ [81] = .ok ⟨[80], 1⟩ := rfl
  rw [h0] at h
  injection h with h
  cases h

/-- C9: every column but the last is left-justified: padded with blanks to
exactly its column width and truncated to it when the item is wider; the
last column is truncated but never padded; with no extra separator adjacent
columns are joined by exactly spacing blanks, giving foobarbaz /
foo bar baz / foo  bar  baz for spacings 0, 1, 2 at line width 80. -/
theorem C9_padding_truncation_spacing :
    (∀ (w : Nat) (s : List Char),
        (padCell w s).length = w ∧
        (s.length ≤ w → padCell w s = s ++ List.replicate (w - s.length) ' ') ∧
        (w ≤ s.length → padCell w s = s.take w) ∧
        truncCell w s = s.take w ∧
        (s.length ≤ w → truncCell w s = s)) ∧
    (∀ (sep : List Char) (w1 w2 : Nat) (s1 s2 : List Char),
        renderRow sep [w1, w2] [s1, s2] = padCell w1 s1 ++ sep ++ truncCell w2 s2) ∧
    (∀ sp : Nat, (fmt80 sp).colSep sp = List.replicate sp ' ') ∧
    format_string (fmt80 0) ["foo".toList, "bar".toList, "baz".toList] =
      .ok "foobarbaz".toList ∧
    format_string (fmt80 1) ["foo".toList, "bar".toList, "baz".toList] =
      .ok "foo bar baz".toList ∧
    format_string (fmt80 2) ["foo".toList, "bar".toList, "baz".toList] =
      .ok "foo  bar  baz".toList := by
  refine ⟨?_, fun sep w1 w2 s1 s2 => rfl, fun sp => rfl, rfl, rfl, rfl⟩
  intro w s
  refine ⟨padCell_length w s, ?_, ?_, rfl, ?_⟩
  · intro hle
    unfold padCell
    rw [List.take_of_length_le hle]
  · intro hge
    unfold padCell
    rw [List.length_take, Nat.min_eq_left hge, Nat.sub_self, List.replicate_zero,
      List.append_nil]
  · intro hle
    unfold truncCell
    exact List.take_of_length_le hle

/-- C3: balanced configurations group items column-major in contiguous runs:
column j of get_unchecked_column_config has width
max(item_widths[j*num_lines : j*num_lines + num_lines]); the rendered row r
consists of items[r], items[r + num_lines], ..., i.e. the item in column i
of row r is items[i*num_lines + r]; and every free-mode result is either
such a balanced configuration or the allow-exceeding single column. -/
theorem C3_column_major_grouping :
    (∀ (iw : List Nat) (k j : Nat)
        (hj : j < (get_unchecked_column_config iw k).column_widths.length),
        (get_unchecked_column_config iw k).column_widths[j] =
          listMax ((iw.drop (j * (get_unchecked_column_config iw k).num_lines)).take
            (get_unchecked_column_config iw k).num_lines)) ∧
    (∀ (items : List (List Char)) (nl r : Nat), r < nl →
        (make_line_chunks items nl)[r]? = some (sliceStep items r nl) ∧
          ∀ i, i < (sliceStep items r nl).length →
            (sliceStep items r nl)[i]? = items[i * nl + r]?) ∧
    (∀ (c : Calc) (iw : List Nat) (cfg : ColumnConfig), c.num_columns = none →
        calculate_columns c iw = .ok cfg → iw ≠ [] →
        cfg = ⟨[c.line_width], iw.length⟩ ∨
          ∃ m, 0 < m ∧ cfg = get_unchecked_column_config iw m) := by
  refine ⟨?_, ?_, ?_⟩
  · intro iw k j hj
    exact columnWidthsOf_getElem iw _ j hj
  · intro items nl r hr
    constructor
    · unfold make_line_chunks
      rw [List.getElem?_map, List.getElem?_range hr]
      rfl
    · intro i hi
      unfold sliceStep at hi ⊢
      rw [List.length_map, List.length_range] at hi
      rw [List.getElem?_map, List.getElem?_range hi]
      have hnl : 0 < nl := by omega
      have hidx : i * nl + r < items.length := by
        have h1 : i * nl < items.length - r := (lt_cdiv_iff hnl _ _).mp hi
        have h2 : r ≤ items.length := by
          by_contra hc
          push_neg at hc
          have : items.length - r = 0 := by omega
          rw [this] at h1
          have := (cdiv_pos_iff hnl 0).mp (by omega : 0 < cdiv 0 nl)
          omega
        omega
      have hg : items.getD (i * nl + r) [] = items.get ⟨i * nl + r, hidx⟩ :=
        List.getD_eq_getElem items [] hidx
      rw [List.getElem?_eq_getElem hidx]
      simpa using hg
  · intro c iw cfg hnone h hne
    have hvalid : ∀ k, c.num_columns = some k → 0 < k := by
      intro k hk
      rw [hnone] at hk
      cases hk
    rcases calculate_columns_ok_shape hvalid h with
      ⟨hemp, _⟩ | ⟨_, rfl⟩ | ⟨_, k, hk0, rfl, _⟩ | ⟨_, k, minw, _, hsome, _, _, _⟩
    · exact absurd hemp hne
    · exact Or.inl rfl
    · exact Or.inr ⟨k, hk0, rfl⟩
    · rw [hnone] at hsome
      cases hsome

/-- C8: every returned configuration satisfies
num_lines = ceil(item_count / len(column_widths)) when column_widths is
non-empty, num_lines = 0 with no columns for the empty input, and
formatting the empty item list yields the empty string. -/
theorem C8_num_lines_invariant :
    (∀ (c : Calc) (iw : List Nat) (cfg : ColumnConfig),
        (∀ k, c.num_columns = some k → 0 < k) →
        calculate_columns c iw = .ok cfg →
        (iw = [] → cfg.column_widths = [] ∧ cfg.num_lines = 0) ∧
        (cfg.column_widths ≠ [] →
          cfg.num_lines = cdiv iw.length cfg.column_widths.length)) ∧
    (∀ f : Fmt, format_string f [] = .ok [] ∧
        calculate_columns f.effCalc [] = .ok ⟨[], 0⟩) := by
  constructor
  · intro c iw cfg hvalid h
    have hinv := calc_ok_invariant hvalid h
    constructor
    · intro hemp
      rw [hinv.1 hemp]
      exact ⟨rfl, rfl⟩
    · intro hwne
      have hne : iw ≠ [] := by
        intro hc
        rw [(hinv.1 hc)] at hwne
        exact hwne rfl
      exact (hinv.2 hne).2.2.2
  · intro f
    exact ⟨rfl, rfl⟩

/-- C6 counterexample: with spacing 0 at line width 20, the bound for item
widths [0, 20] is 1, yet the balanced two-column configuration [0, 20] fits
the line, so the bound is not sound as claimed. -/
theorem C6_counterexample :
    calculate_max_columns calcDeg [0, 20] = .ok 1 ∧
    fits_in_line calcDeg (get_unchecked_column_config [0, 20] 2).column_widths = true ∧
    (get_unchecked_column_config [0, 20] 2).column_widths.length = 2 ∧ ¬(2 ≤ 1) :=
  ⟨rfl, rfl, rfl, by omega⟩

/-- C1 counterexample: at spacing 0, line width 20, item widths [0, 20],
the search returns the single-column configuration although the balanced
two-column configuration fits, so the result is not the fitting balanced
configuration with the most columns. -/
theorem C1_counterexample :
    find_fitting_config calcDeg [0, 20] = .ok ⟨[20], 2⟩ ∧
    fits_in_line calcDeg (get_unchecked_column_config [0, 20] 2).column_widths = true ∧
    (get_unchecked_column_config [0, 20] 2).column_widths.length = 2 ∧
    (⟨[20], 2⟩ : ColumnConfig).column_widths.length = 1 :=
  ⟨rfl, rfl, rfl, rfl⟩

/-! ### Free-mode dissection helpers -/

/-- The let-free normal form of calculate_max_columns. -/
theorem calculate_max_cases (c : Calc) (iw : List Nat) :
    calculate_max_columns c iw =
      if iw.length ≤ 1 then .ok iw.length
      else if listMax iw ≥ c.line_width then .ok 1
      else if c.spacing + listMin iw = 0 then .error .zeroDivision
      else .ok (Nat.min iw.length
        (1 + (c.line_width - listMax iw) / (c.spacing + listMin iw))) := rfl

theorem calculate_max_error_is_zero_div {c : Calc} {iw : List Nat} {e : PyError}
    (h : calculate_max_columns c iw = .error e) : e = .zeroDivision := by
  rw [calculate_max_cases] at h
  split at h
  · cases h
  · split at h
    · cases h
    · split at h
      · injection h with h
        exact h.symm
      · cases h

theorem calculate_max_pos {c : Calc} {iw : List Nat} {mc : Nat}
    (h : calculate_max_columns c iw = .ok mc) (hne : iw ≠ []) : 0 < mc := by
  have hN : 0 < iw.length := List.length_pos.mpr hne
  rw [calculate_max_cases] at h
  split at h
  · injection h with h
    omega
  · split at h
    · injection h with h
      omega
    · split at h
      · cases h
      · injection h with h
        rename_i hn _ _
        have : 1 ≤ Nat.min iw.length (1 + (c.line_width - listMax iw) /
            (c.spacing + listMin iw)) :=
          Nat.le_min.mpr ⟨by omega, Nat.le_add_right 1 _⟩
        omega

theorem iter_one (iw : List Nat) (hne : iw ≠ []) :
    iter_column_configs iw 1 = [⟨[listMax iw], iw.length⟩] := by
  rw [iter_column_configs_succ iw 1 (by omega), unchecked_one hne]
  rfl

theorem fits_single_iff {c : Calc} {m : Nat} :
    fits_in_line c [m] = true ↔ m ≤ c.line_width := by
  unfold fits_in_line get_used_line_width
  simp only [List.sum_cons, List.sum_nil, List.length_cons, List.length_nil,
    decide_eq_true_eq]
  push_cast
  constructor <;> intro h <;> omega

/-- With no fixed column count and exceeding disallowed, the calculation on
a non-empty input is exactly the free-mode search. -/
theorem calc_free_noexceed_eq {c : Calc} {iw : List Nat} (hnone : c.num_columns = none)
    (hae : c.allow_exceeding = false) (hne : iw ≠ []) :
    calculate_columns c iw = find_fitting_config c iw := by
  have hgc : get_column_config c iw = find_fitting_config c iw := by
    unfold get_column_config
    rw [hnone]
  unfold calculate_columns
  rw [if_neg (show ¬ iw.isEmpty = true from fun hc => hne (List.isEmpty_iff.mp hc)), hgc]
  cases hf : find_fitting_config c iw with
  | ok cfg => rfl
  | error e =>
    cases e with
    | lineTooSmall =>
      rw [if_neg]
      intro hcond
      rw [hae] at hcond
      exact absurd hcond.1 (by simp)
    | zeroDivision => rfl
    | valueError => rfl

/-- C4: in free mode with exceeding disallowed, a non-empty calculation
raises LineTooSmallError exactly when the widest item is strictly wider
than the line, and a calculator error always aborts formatting with no
output lines produced. -/
theorem C4_insufficient_width_iff :
    (∀ (c : Calc) (iw : List Nat), c.num_columns = none → c.allow_exceeding = false →
        iw ≠ [] →
        (calculate_columns c iw = .error .lineTooSmall ↔ c.line_width < listMax iw)) ∧
    (∀ (f : Fmt) (items : List (List Char)) (e : PyError),
        get_line_properties f items = .error e →
        make_lines_pieces f items = .error e ∧ format_string f items = .error e) := by
  refine ⟨?_, fun f items e h => format_error_prop h⟩
  intro c iw hnone hae hne
  rw [calc_free_noexceed_eq hnone hae hne]
  constructor
  · intro h
    unfold find_fitting_config at h
    split at h
    · rename_i e hmc
      injection h with h
      have := calculate_max_error_is_zero_div hmc
      subst this
      cases h
    · rename_i mc hmc
      split at h
      · cases h
      · rename_i hfind
        have hmem := single_col_mem hne mc (calculate_max_pos hmc hne)
        have hnofit := List.find?_eq_none.mp hfind _ hmem
        simp only [Bool.not_eq_true] at hnofit
        by_contra hc
        push_neg at hc
        exact absurd (fits_single_iff.mpr hc) (by rw [hnofit]; simp)
  · intro hlt
    have hmc : calculate_max_columns c iw = .ok 1 := by
      rw [calculate_max_cases]
      by_cases hn : iw.length ≤ 1
      · rw [if_pos hn]
        have hN : 0 < iw.length := List.length_pos.mpr hne
        have : iw.length = 1 := by omega
        rw [this]
      · rw [if_neg hn, if_pos (by omega)]
    unfold find_fitting_config
    rw [hmc]
    dsimp only
    rw [iter_one iw hne, List.find?_cons_of_neg, List.find?_nil]
    simp only [Bool.not_eq_true]
    rw [Bool.eq_false_iff]
    intro hfits
    exact absurd (fits_single_iff.mp hfits) (by omega)

/-- C1 (amended): a successful free-mode calculation returns a candidate of
the downward scan from the calculate_max_columns bound; it fits, and it has
the most columns among all fitting scanned candidates; the three concrete
examples of the claim hold. -/
theorem C1_first_fitting_amended :
    (∀ (c : Calc) (iw : List Nat) (cfg : ColumnConfig), c.num_columns = none →
        c.allow_exceeding = false → iw ≠ [] →
        calculate_columns c iw = .ok cfg →
        ∃ mc, calculate_max_columns c iw = .ok mc ∧
          cfg ∈ iter_column_configs iw mc ∧
          fits_in_line c cfg.column_widths = true ∧
          ∀ cfg' ∈ iter_column_configs iw mc,
            fits_in_line c cfg'.column_widths = true →
              cfg'.column_widths.length ≤ cfg.column_widths.length) ∧
    calculate_columns calc80 [30, 10, 15] = .ok ⟨[30, 10, 15], 1⟩ ∧
    calculate_columns calc50 [30, 10, 15] = .ok ⟨[30, 15], 2⟩ ∧
    calculate_columns calc45 [30, 10, 15] = .ok ⟨[30], 3⟩ := by
  refine ⟨?_, rfl, rfl, rfl⟩
  intro c iw cfg hnone hae hne h
  rw [calc_free_noexceed_eq hnone hae hne] at h
  unfold find_fitting_config at h
  split at h
  · cases h
  · rename_i mc hmc
    split at h
    · rename_i cfg1 hfind
      injection h with h
      subst h
      rcases find_first_max (iter_column_configs iw mc) (iter_pairwise iw mc) hfind with
        ⟨hfits, hbound⟩
      exact ⟨mc, hmc, List.mem_of_find?_eq_some hfind, hfits, hbound⟩
    · cases h

/-! ### Lower bounds on sums of column widths -/

theorem sum_ge_card_mul {l : List Nat} {s : Nat} (h : ∀ w ∈ l, s ≤ w) :
    l.length * s ≤ l.sum := by
  induction l with
  | nil => simp
  | cons w rest ih =>
    rw [List.length_cons, List.sum_cons, Nat.succ_mul]
    have h1 := h w (List.mem_cons_self w rest)
    have h2 := ih (fun x hx => h x (List.mem_cons.mpr (Or.inr hx)))
    omega

theorem sum_ge_of_bounds {l : List Nat} {s W : Nat} (h1 : ∀ w ∈ l, s ≤ w)
    (h2 : ∃ w ∈ l, W ≤ w) : W + (l.length - 1) * s ≤ l.sum := by
  induction l with
  | nil =>
    rcases h2 with ⟨w, hw, _⟩
    cases hw
  | cons x rest ih =>
    rcases h2 with ⟨w, hw, hWw⟩
    rw [List.sum_cons, List.length_cons, Nat.add_sub_cancel]
    rcases List.mem_cons.mp hw with rfl | hmem
    · have hmul := sum_ge_card_mul (fun y hy => h1 y (List.mem_cons.mpr (Or.inr hy)))
      omega
    · have hx := h1 x (List.mem_cons_self x rest)
      have hrec := ih (fun y hy => h1 y (List.mem_cons.mpr (Or.inr hy))) ⟨w, hmem, hWw⟩
      have hlen : 0 < rest.length :=
        List.length_pos.mpr (fun hc => by rw [hc] at hmem; cases hmem)
      have hstep : rest.length - 1 + 1 = rest.length := by omega
      have hdist : rest.length * s = (rest.length - 1) * s + s := by
        conv_lhs => rw [← hstep]
        rw [Nat.succ_mul]
      omega

/-- C6 (amended): the bound formula of calculate_max_columns for at least
two items, and its soundness over balanced candidates under the proviso
spacing + smallest width > 0. -/
theorem C6_max_columns_amended : ∀ (c : Calc) (iw : List Nat), 2 ≤ iw.length →
    (c.line_width ≤ listMax iw → calculate_max_columns c iw = .ok 1) ∧
    (listMax iw < c.line_width → 0 < c.spacing + listMin iw →
        calculate_max_columns c iw =
          .ok (Nat.min iw.length
            (1 + (c.line_width - listMax iw) / (c.spacing + listMin iw)))) ∧
    (0 < c.spacing + listMin iw → ∀ mc, calculate_max_columns c iw = .ok mc →
        ∀ k, 0 < k →
          fits_in_line c (get_unchecked_column_config iw k).column_widths = true →
          (get_unchecked_column_config iw k).column_widths.length ≤ mc) := by
  intro c iw h2
  have hne : iw ≠ [] := by
    intro hc
    rw [hc] at h2
    simp at h2
  have hN : 0 < iw.length := by omega
  refine ⟨?_, ?_, ?_⟩
  · intro hW
    rw [calculate_max_cases, if_neg (show ¬ iw.length ≤ 1 by omega), if_pos (by omega)]
  · intro hW hd
    rw [calculate_max_cases, if_neg (show ¬ iw.length ≤ 1 by omega),
      if_neg (show ¬ listMax iw ≥ c.line_width by omega),
      if_neg (show ¬ (c.spacing + listMin iw = 0) by omega)]
  · intro hd mc hmc k hk hfit
    have hnl := unchecked_num_lines hk iw
    have hnl_pos : 0 < (get_unchecked_column_config iw k).num_lines := by
      rw [hnl]
      exact (cdiv_pos_iff hk _).mpr hN
    have hwid : (get_unchecked_column_config iw k).column_widths =
        columnWidthsOf iw (get_unchecked_column_config iw k).num_lines := rfl
    have hj_pos : 0 < (get_unchecked_column_config iw k).column_widths.length :=
      unchecked_widths_pos hk hne
    have hj_le_n : (get_unchecked_column_config iw k).column_widths.length ≤ iw.length := by
      rw [hwid, columnWidthsOf_length]
      exact cdiv_le_self hnl_pos _
    have hS := sum_ge_of_bounds
      (l := (get_unchecked_column_config iw k).column_widths)
      (s := listMin iw) (W := listMax iw)
      (by rw [hwid]; exact columnWidthsOf_lower hnl_pos)
      (by rw [hwid]; exact columnWidthsOf_exists_widest hnl_pos hne)
    have hfitN : (get_unchecked_column_config iw k).column_widths.sum +
        ((get_unchecked_column_config iw k).column_widths.length - 1) * c.spacing ≤
          c.line_width := by
      unfold fits_in_line get_used_line_width at hfit
      have hle := of_decide_eq_true hfit
      have hcast : (((get_unchecked_column_config iw k).column_widths.length - 1 : Nat) :
          Int) = ((get_unchecked_column_config iw k).column_widths.length : Int) - 1 :=
        Nat.cast_sub hj_pos
      rw [← hcast] at hle
      exact_mod_cast hle
    have hdist : ((get_unchecked_column_config iw k).column_widths.length - 1) *
        (c.spacing + listMin iw) =
        ((get_unchecked_column_config iw k).column_widths.length - 1) * c.spacing +
          ((get_unchecked_column_config iw k).column_widths.length - 1) * listMin iw :=
      Nat.left_distrib _ _ _
    have hkey : listMax iw +
        ((get_unchecked_column_config iw k).column_widths.length - 1) *
          (c.spacing + listMin iw) ≤ c.line_width := by
      omega
    rw [calculate_max_cases, if_neg (show ¬ iw.length ≤ 1 by omega)] at hmc
    by_cases hW : listMax iw ≥ c.line_width
    · rw [if_pos hW] at hmc
      injection hmc with hmc
      have hz : ((get_unchecked_column_config iw k).column_widths.length - 1) *
          (c.spacing + listMin iw) = 0 := by omega
      rcases Nat.mul_eq_zero.mp hz with hz1 | hz1 <;> omega
    · rw [if_neg hW, if_neg (show ¬ (c.spacing + listMin iw = 0) by omega)] at hmc
      injection hmc with hmc
      have hdiv : (get_unchecked_column_config iw k).column_widths.length - 1 ≤
          (c.line_width - listMax iw) / (c.spacing + listMin iw) :=
        (Nat.le_div_iff_mul_le hd).mpr (by omega)
      rw [← hmc]
      exact Nat.le_min.mpr ⟨hj_le_n, by omega⟩

/-- C2: when formatting succeeds, the returned column widths satisfy
sum(column_widths) + spacing * (len - 1) <= line_width (the allow-exceeding
escape included, whose single column is exactly the line width), and every
rendered sub-line is bounded by that sum and hence by the line width. -/
theorem C2_width_invariant :
    ∀ (f : Fmt) (items : List (List Char)) (pls : List (List (List Char))),
      (∀ k, f.effCalc.num_columns = some k → 0 < k) →
      make_lines_pieces f items = .ok pls →
      ∃ props, get_line_properties f items = .ok props ∧
        get_used_line_width f.effCalc props.column_widths ≤ (f.effCalc.line_width : Int) ∧
        ∀ pc ∈ pls, ∀ line ∈ pc,
          line.length ≤ props.column_widths.sum +
            (props.column_widths.length - 1) * props.spacing ∧
          line.length ≤ f.effCalc.line_width := by
  intro f items pls hvalid h
  unfold make_lines_pieces at h
  split at h
  · cases h
  · rename_i props hp
    obtain ⟨cfg, hcalc, hprops⟩ : ∃ cfg,
        calculate_columns f.effCalc (items.map List.length) = .ok cfg ∧
          props = ⟨cfg.column_widths, f.effCalc.spacing, cfg.num_lines⟩ := by
      have hp2 := hp
      unfold get_line_properties calc_line_properties at hp2
      split at hp2
      · rename_i cfg0 hcfg
        injection hp2 with hp2
        exact ⟨cfg0, hcfg, hp2.symm⟩
      · cases hp2
    subst hprops
    refine ⟨_, hp, calc_ok_fits hvalid hcalc, ?_⟩
    intro pc hpc line hline
    rcases mapExcept_ok_forall h pc hpc with ⟨chunk, hchunk_mem, hchunk⟩
    have hb1 := format_chunk_line_le (colSep_length f) hchunk line hline
    simp only at hb1 hchunk_mem ⊢
    refine ⟨hb1, ?_⟩
    have hinv := calc_ok_invariant hvalid hcalc
    by_cases hiw : items.map List.length = []
    · exfalso
      have h0 : cfg = ⟨[], 0⟩ := hinv.1 hiw
      rw [h0] at hchunk_mem
      simp [make_line_chunks] at hchunk_mem
    · have hlen_pos := (hinv.2 hiw).1
      have hused := calc_ok_fits hvalid hcalc
      unfold get_used_line_width at hused
      have hcast : ((cfg.column_widths.length - 1 : Nat) : Int) =
          (cfg.column_widths.length : Int) - 1 := Nat.cast_sub hlen_pos
      rw [← hcast] at hused
      have husedN : cfg.column_widths.sum +
          (cfg.column_widths.length - 1) * f.effCalc.spacing ≤ f.effCalc.line_width := by
        exact_mod_cast hused
      omega

/-- C7: successful shrinking relates every output width to its input width
(nothing grows, nothing drops below min(width, minimum), a column at or
below the minimum is untouched), the result fits the line, a prefix of the
columns is returned unchanged, shrinking fails exactly when even the fully
shrunk widths exceed the line, and [48, 35] at spacing 2 and line width 80
shrinks to [48, 30]. -/
theorem C7_shrink_behaviour :
    (∀ (c : Calc) (minw : Nat) (ws r : List Nat),
        shrink_column_widths c minw ws = .ok r →
        List.Forall₂ (shrinkRel minw) ws r ∧
        get_used_line_width c r ≤ (c.line_width : Int) ∧
        (∀ i (hi : i < ws.length) (hi2 : i < r.length),
            ws[i] ≤ minw → r[i] = ws[i]) ∧
        ∃ kk, kk ≤ ws.length ∧
          r.take (ws.length - kk) = ws.take (ws.length - kk)) ∧
    (∀ (c : Calc) (minw : Nat) (ws : List Nat),
        shrink_column_widths c minw ws = .error .lineTooSmall ↔
          (c.line_width : Int) <
            ((ws.map (fun w => Nat.min w minw)).sum : Int) +
              ((ws.length : Int) - 1) * (c.spacing : Int)) ∧
    shrink_column_widths ⟨2, 80, some 2, false, some 10⟩ 10 [48, 35] = .ok [48, 30] := by
  refine ⟨?_, fun c minw ws => shrink_error_iff, rfl⟩
  intro c minw ws r h
  obtain ⟨hfa, hfit⟩ := shrink_ok_spec h
  refine ⟨hfa, hfit, ?_, ?_⟩
  · intro i hi hi2 hle
    have hrel := hfa.get hi hi2
    simp only [List.get_eq_getElem] at hrel
    have h1 := hrel.1
    have h2 := hrel.2
    have hmm : Nat.min (ws[i]) minw = ws[i] := Nat.min_eq_left hle
    omega
  · obtain ⟨proc, hacc, hlen, _, _, _, _⟩ :=
      shrink_aux_spec minw ws.reverse (get_used_line_width c ws - (c.line_width : Int)) []
    rw [List.length_reverse] at hlen
    rw [List.append_nil] at hacc
    unfold shrink_column_widths at h
    simp only at h
    set res := shrink_aux minw (get_used_line_width c ws - (c.line_width : Int)) ws.reverse []
      with hres
    by_cases hpos : res.1 > 0
    · rw [if_pos hpos] at h
      cases h
    · rw [if_neg hpos] at h
      by_cases hemp : res.2.isEmpty
      · rw [if_pos hemp] at h
        injection h with h
        subst h
        exact ⟨0, Nat.zero_le _, rfl⟩
      · rw [if_neg hemp] at h
        injection h with h
        subst h
        have hkk : res.2.length ≤ ws.length := by
          rw [hacc, List.length_reverse]
          exact hlen
        refine ⟨res.2.length, hkk, ?_⟩
        have htl : (ws.take (ws.length - res.2.length)).length =
            ws.length - res.2.length := by
          rw [List.length_take]
          exact Nat.min_eq_left (Nat.sub_le _ _)
        rw [List.take_left' htl]

/-- C10: with spacing 0, at least two items, an empty smallest item and the
widest item narrower than the line, calculate_max_columns (and hence a
free-mode calculate_columns) raises ZeroDivisionError; whenever a returned
configuration contains a zero column width on a non-empty input the wrap
computation raises ZeroDivisionError; columnize of two empty strings at the
default spacing 2 and width 80 raises ZeroDivisionError. -/
theorem C10_zero_division :
    (∀ (c : Calc) (iw : List Nat), c.spacing = 0 → 2 ≤ iw.length → listMin iw = 0 →
        listMax iw < c.line_width →
        calculate_max_columns c iw = .error .zeroDivision ∧
        (c.num_columns = none → calculate_columns c iw = .error .zeroDivision)) ∧
    (∀ (f : Fmt) (items : List (List Char)) (props : LineProperties),
        (∀ k, f.effCalc.num_columns = some k → 0 < k) →
        get_line_properties f items = .ok props → items ≠ [] →
        0 ∈ props.column_widths →
        make_lines_pieces f items = .error .zeroDivision ∧
        format_string f items = .error .zeroDivision) ∧
    format_string (fmt80 2) [[], []] = .error .zeroDivision := by
  refine ⟨?_, ?_, rfl⟩
  · intro c iw hsp h2 hmin hmax
    have hmc : calculate_max_columns c iw = .error .zeroDivision := by
      rw [calculate_max_cases, if_neg (show ¬ iw.length ≤ 1 by omega),
        if_neg (show ¬ listMax iw ≥ c.line_width by omega), if_pos (by omega)]
    refine ⟨hmc, fun hnone => ?_⟩
    have hne : iw ≠ [] := by
      intro hc
      rw [hc] at h2
      simp at h2
    have hgc : get_column_config c iw = .error .zeroDivision := by
      unfold get_column_config
      rw [hnone]
      unfold find_fitting_config
      rw [hmc]
    unfold calculate_columns
    rw [if_neg (show ¬ iw.isEmpty = true from fun hc => hne (List.isEmpty_iff.mp hc)), hgc]
  · intro f items props hvalid hp hne hzero
    obtain ⟨cfg, hcalc, hprops⟩ : ∃ cfg,
        calculate_columns f.effCalc (items.map List.length) = .ok cfg ∧
          props = ⟨cfg.column_widths, f.effCalc.spacing, cfg.num_lines⟩ := by
      have hp2 := hp
      unfold get_line_properties calc_line_properties at hp2
      split at hp2
      · rename_i cfg0 hcfg
        injection hp2 with hp2
        exact ⟨cfg0, hcfg, hp2.symm⟩
      · cases hp2
    subst hprops
    simp only at hzero
    have hiw : items.map List.length ≠ [] := by
      intro hc
      exact hne (List.map_eq_nil_iff.mp hc)
    have hinv := calc_ok_invariant hvalid hcalc
    have hw_pos := (hinv.2 hiw).1
    have hnl_pos := (hinv.2 hiw).2.1
    have hlen_eq := (hinv.2 hiw).2.2.1
    have hlen0 : (sliceStep items 0 cfg.num_lines).length = cfg.column_widths.length := by
      unfold sliceStep
      rw [List.length_map, List.length_range, Nat.sub_zero, hlen_eq, List.length_map]
    obtain ⟨rest, hrest⟩ : ∃ rest, make_line_chunks items cfg.num_lines =
        sliceStep items 0 cfg.num_lines :: rest := by
      obtain ⟨m, hm⟩ : ∃ m, cfg.num_lines = m + 1 := ⟨cfg.num_lines - 1, by omega⟩
      rw [hm]
      unfold make_line_chunks
      rw [List.range_succ_eq_map, List.map_cons]
      exact ⟨_, rfl⟩
    rcases List.getElem_of_mem hzero with ⟨j, hj, hval⟩
    have hzlen : ((sliceStep items 0 cfg.num_lines).zip cfg.column_widths).length =
        cfg.column_widths.length := by
      rw [List.length_zip, hlen0]
      exact Nat.min_self _
    have hjz : j < ((sliceStep items 0 cfg.num_lines).zip cfg.column_widths).length := by
      rw [hzlen]
      exact hj
    have hany : (((sliceStep items 0 cfg.num_lines).zip cfg.column_widths).any
        (fun q => q.2 = 0)) = true := by
      rw [List.any_eq_true]
      refine ⟨((sliceStep items 0 cfg.num_lines).zip cfg.column_widths)[j],
        List.getElem_mem hjz, ?_⟩
      rw [List.getElem_zip]
      simp [hval]
    have hnw : num_wraps (sliceStep items 0 cfg.num_lines) cfg.column_widths =
        .error .zeroDivision := by
      unfold num_wraps
      cases hz : (sliceStep items 0 cfg.num_lines).zip cfg.column_widths with
      | nil =>
        exfalso
        rw [hz] at hzlen
        simp at hzlen
        omega
      | cons p ps =>
        rw [hz] at hany
        dsimp only
        rw [if_pos hany]
    have hfc : format_chunk f ⟨cfg.column_widths, f.effCalc.spacing, cfg.num_lines⟩
        (sliceStep items 0 cfg.num_lines) = .error .zeroDivision := by
      unfold format_chunk
      simp only
      rw [hnw]
    have hml : make_lines_pieces f items = .error .zeroDivision := by
      unfold make_lines_pieces
      rw [hp]
      simp only
      rw [hrest]
      exact mapExcept_cons_error hfc
    refine ⟨hml, ?_⟩
    unfold format_string
    rw [hml]

/-! ### Witnesses: the claim theorems applied at concrete inputs -/

theorem C1_first_fitting_amended_witness :
    ∃ mc, calculate_max_columns calc80 [30, 10, 15] = .ok mc ∧
      (⟨[30, 10, 15], 1⟩ : ColumnConfig) ∈ iter_column_configs [30, 10, 15] mc ∧
      fits_in_line calc80 (⟨[30, 10, 15], 1⟩ : ColumnConfig).column_widths = true ∧
      ∀ cfg' ∈ iter_column_configs [30, 10, 15] mc,
        fits_in_line calc80 cfg'.column_widths = true →
          cfg'.column_widths.length ≤
            (⟨[30, 10, 15], 1⟩ : ColumnConfig).column_widths.length :=
  C1_first_fitting_amended.1 calc80 [30, 10, 15] ⟨[30, 10, 15], 1⟩ rfl rfl
    (by simp) rfl

theorem C2_width_invariant_witness :
    ∃ props,
      get_line_properties (fmt80 2) ["foo".toList, "bar".toList, "baz".toList] =
        .ok props ∧
      get_used_line_width (fmt80 2).effCalc props.column_widths ≤
        ((fmt80 2).effCalc.line_width : Int) ∧
      ∀ pc ∈ [["foo  bar  baz".toList]], ∀ line ∈ pc,
        line.length ≤ props.column_widths.sum +
          (props.column_widths.length - 1) * props.spacing ∧
        line.length ≤ (fmt80 2).effCalc.line_width :=
  C2_width_invariant (fmt80 2) ["foo".toList, "bar".toList, "baz".toList]
    [["foo  bar  baz".toList]] (fun k hk => by simp [fmt80, Fmt.effCalc] at hk) rfl

theorem C3_column_major_grouping_witness :
    (sliceStep ["a".toList, "bb".toList, "ccc".toList] 1 2)[0]? =
      ["a".toList, "bb".toList, "ccc".toList][0 * 2 + 1]? ∧
    ((⟨[30, 10, 15], 1⟩ : ColumnConfig) = ⟨[calc80.line_width], 3⟩ ∨
      ∃ m, 0 < m ∧ (⟨[30, 10, 15], 1⟩ : ColumnConfig) =
        get_unchecked_column_config [30, 10, 15] m) :=
  ⟨(C3_column_major_grouping.2.1 ["a".toList, "bb".toList, "ccc".toList] 2 1
      (by omega)).2 0 (by simp [sliceStep, cdiv]),
    C3_column_major_grouping.2.2 calc80 [30, 10, 15] ⟨[30, 10, 15], 1⟩ rfl rfl (by simp)⟩

theorem C4_insufficient_width_iff_witness :
    calculate_columns calc80 [81] = .error .lineTooSmall ↔
      calc80.line_width < listMax [81] :=
  C4_insufficient_width_iff.1 calc80 [81] rfl rfl (by simp)

theorem C6_max_columns_amended_witness :
    calculate_max_columns calc80 [30, 10, 15] =
      .ok (Nat.min ([30, 10, 15] : List Nat).length
        (1 + (calc80.line_width - listMax [30, 10, 15]) /
          (calc80.spacing + listMin [30, 10, 15]))) ∧
    (get_unchecked_column_config [30, 10, 15] 3).column_widths.length ≤ 3 :=
  ⟨(C6_max_columns_amended calc80 [30, 10, 15] (by simp)).2.1 (by decide) (by decide),
    (C6_max_columns_amended calc80 [30, 10, 15] (by simp)).2.2 (by decide) 3 rfl 3
      (by omega) rfl⟩

theorem C7_shrink_behaviour_witness :
    List.Forall₂ (shrinkRel 10) [48, 35] [48, 30] ∧
    get_used_line_width ⟨2, 80, some 2, false, some 10⟩ [48, 30] ≤
      ((⟨2, 80, some 2, false, some 10⟩ : Calc).line_width : Int) ∧
    (shrink_column_widths ⟨2, 80, some 2, false, some 10⟩ 10 [90, 5] =
        .error .lineTooSmall ↔
      ((⟨2, 80, some 2, false, some 10⟩ : Calc).line_width : Int) <
        (([90, 5].map (fun w => Nat.min w 10)).sum : Int) +
          ((([90, 5] : List Nat).length : Int) - 1) *
            (((⟨2, 80, some 2, false, some 10⟩ : Calc).spacing : Int))) :=
  ⟨(C7_shrink_behaviour.1 ⟨2, 80, some 2, false, some 10⟩ 10 [48, 35] [48, 30] rfl).1,
    (C7_shrink_behaviour.1 ⟨2, 80, some 2, false, some 10⟩ 10 [48, 35] [48, 30] rfl).2.1,
    C7_shrink_behaviour.2.1 ⟨2, 80, some 2, false, some 10⟩ 10 [90, 5]⟩

theorem C8_num_lines_invariant_witness :
    (⟨[3, 4, 5], 1⟩ : ColumnConfig).num_lines =
      cdiv ([3, 4, 5] : List Nat).length
        (⟨[3, 4, 5], 1⟩ : ColumnConfig).column_widths.length ∧
    format_string (fmt80 2) [] = .ok [] :=
  ⟨(C8_num_lines_invariant.1 calc80 [3, 4, 5] ⟨[3, 4, 5], 1⟩
      (fun k hk => by simp [calc80] at hk) rfl).2 (by simp),
    (C8_num_lines_invariant.2 (fmt80 2)).1⟩

theorem C9_padding_truncation_spacing_witness :
    padCell 5 "abc".toList = "abc".toList ++ List.replicate 2 ' ' ∧
    padCell 2 "abc".toList = "abc".toList.take 2 ∧
    truncCell 5 "abc".toList = "abc".toList :=
  ⟨(C9_padding_truncation_spacing.1 5 "abc".toList).2.1 (by decide),
    (C9_padding_truncation_spacing.1 2 "abc".toList).2.2.1 (by decide),
    (C9_padding_truncation_spacing.1 5 "abc".toList).2.2.2.2 (by decide)⟩

theorem C10_zero_division_witness :
    calculate_max_columns ⟨0, 80, none, false, none⟩ [0, 5] = .error .zeroDivision ∧
    calculate_columns ⟨0, 80, none, false, none⟩ [0, 5] = .error .zeroDivision ∧
    make_lines_pieces (fmt80 2) [[], []] = .error .zeroDivision := by
  have h1 := C10_zero_division.1 ⟨0, 80, none, false, none⟩ [0, 5] rfl (by simp) rfl
    (by decide)
  have h2 := C10_zero_division.2.1 (fmt80 2) [[], []] ⟨[0, 0], 2, 1⟩
    (fun k hk => by simp [fmt80, Fmt.effCalc] at hk) rfl (by simp) (by simp)
  exact ⟨h1.1, h1.2 rfl, h2.1⟩

end Shcol
